import Mathlib

/-!
Verification development for the COCQ-Management field-extraction engine.

The Python sources `src/utils.py` and `src/extractor.py` are shallowly
embedded below.  Python strings are modelled as `List Char` (ASCII inputs),
`None`-able values as `Option`, and the external collaborators of
`extract_data` (pdfplumber text layer, table rows, Tesseract OCR text) as
fields of a `Doc` record, since the orchestrator only consumes their
results.  Machine-level caveat recorded where relevant: CPython on
Linux/glibc renders `strftime('%Y')` for years below 1000 without zero
padding, which the embedding reproduces.
-/

namespace COCQ

/-- Python strings, modelled as lists of characters. -/
abbrev Str := List Char

/-- Coerce a Lean string literal to the embedding's string type. -/
def lit (s : String) : Str := s.data

/-- ASCII whitespace set recognised by Python's `str.strip` and `\s`. -/
def isSpaceC (c : Char) : Bool :=
  c = ' ' ∨ c = '\t' ∨ c = '\n' ∨ c = '\r' ∨ c = '\x0b' ∨ c = '\x0c'

/-- ASCII decimal digit. -/
def isDigitC (c : Char) : Bool := '0' ≤ c ∧ c ≤ '9'

/-- ASCII uppercase letter. -/
def isUpperC (c : Char) : Bool := 'A' ≤ c ∧ c ≤ 'Z'

/-- ASCII lowercase letter. -/
def isLowerC (c : Char) : Bool := 'a' ≤ c ∧ c ≤ 'z'

/-- ASCII letter. -/
def isAlphaC (c : Char) : Bool := isUpperC c ∨ isLowerC c

/-- ASCII alphanumeric. -/
def isAlnumC (c : Char) : Bool := isAlphaC c ∨ isDigitC c

/-- Regex word character `\w` (ASCII fragment). -/
def isWordC (c : Char) : Bool := isAlnumC c ∨ c = '_'

/-- ASCII lowercase fold (Python `str.lower` on ASCII input). -/
def lowC (c : Char) : Char :=
  if isUpperC c then Char.ofNat (c.toNat + 32) else c

/-- Lowercase a string. -/
def lowS (s : Str) : Str := s.map lowC

/-- Python `str.strip()`: drop leading and trailing whitespace. -/
def stripS (s : Str) : Str :=
  ((s.dropWhile isSpaceC).reverse.dropWhile isSpaceC).reverse

/-- Python `needle in haystack` for strings (contiguous substring). -/
def subIn (needle : Str) : Str → Bool
  | [] => needle.isEmpty
  | c :: rest => needle.isPrefixOf (c :: rest) || subIn needle rest

/-- Numeric value of a digit string (Python `int`); digits only. -/
def digitsVal (s : Str) : Nat :=
  s.foldl (fun a c => a * 10 + (c.toNat - 48)) 0

/-- Decimal digit character for `d < 10`. -/
def digC (d : Nat) : Char := Char.ofNat (48 + d)

/-- Fuelled most-significant-first decimal digit expansion. -/
def decGo : Nat → Nat → Str
  | 0, _ => []
  | f + 1, n => if n < 10 then [digC n] else decGo f (n / 10) ++ [digC (n % 10)]

/-- Decimal rendering of a natural number, no padding (Python `str(n)`,
glibc `strftime %Y`). -/
def natDec (n : Nat) : Str := decGo (n + 1) n

/-- `str(i).zfill(w)`: left pad with zeros to width `w`. -/
def zfill (w : Nat) (n : Nat) : Str :=
  let d := natDec n
  List.replicate (w - d.length) '0' ++ d

/-- Two-digit zero padding (strftime `%d` / `%m`). -/
def pad2 (n : Nat) : Str := zfill 2 n

/-- Newline-join a list of strings (Python `"\n".join`). -/
def joinNL : List Str → Str
  | [] => []
  | [s] => s
  | s :: rest => s ++ '\n' :: joinNL rest

/-- `list(dict.fromkeys(l))`: first-occurrence order, exact duplicates
removed. -/
def dedupKeepFirst : List Str → List Str
  | [] => []
  | s :: rest => s :: (dedupKeepFirst rest).filter (· ≠ s)

/-- Append a value unless it is already present (the `seen`-set guard of
`extract_serial_number`; the Python `seen` set always holds exactly the
elements of `results`, so membership is tested on the list directly). -/
def addIfNew (acc : List Str) (v : Str) : List Str :=
  if v ∈ acc then acc else acc ++ [v]

/-! ## `datetime.strptime` / `strftime`, specialised to the formats used by
`normalize_date` (`src/utils.py`).

CPython's `_strptime` compiles each directive to a regex fragment:
`%d ↦ (3[01]|[12]\d|0[1-9]|[1-9])`, `%m ↦ (1[0-2]|0[1-9]|[1-9])`,
`%y ↦ (\d\d)`, `%Y ↦ (\d\d\d\d)`, `%B`/`%b` to the month-name alternation
sorted by length (descending, stable), literal whitespace to `\s+`, the
whole regex matched case-insensitively against the entire string.  The
matcher below reproduces those fragments together with the engine's
alternation priority and backtracking. -/

/-- Field actions of a format token match. -/
inductive TokAct where
  | setD (v : Nat)
  | setM (v : Nat)
  | setY (v : Nat)
  | keep
deriving DecidableEq

/-- Format tokens appearing in `normalize_date`'s format list. -/
inductive FTok where
  | D | M | Y4 | Y2 | B | Bab | WS
  | lit (c : Char)

/-- `%d` alternation `3[01]|[12]\d|0[1-9]|[1-9]`: candidate
(value, consumed) pairs in regex priority order. -/
def dayCands : Str → List (Nat × Nat)
  | c1 :: c2 :: _ =>
      (if c1 = '3' ∧ (c2 = '0' ∨ c2 = '1') then [(digitsVal [c1, c2], 2)] else []) ++
      (if (c1 = '1' ∨ c1 = '2') ∧ isDigitC c2 then [(digitsVal [c1, c2], 2)] else []) ++
      (if c1 = '0' ∧ isDigitC c2 ∧ c2 ≠ '0' then [(digitsVal [c2], 2)] else []) ++
      (if isDigitC c1 ∧ c1 ≠ '0' then [(digitsVal [c1], 1)] else [])
  | [c1] => if isDigitC c1 ∧ c1 ≠ '0' then [(digitsVal [c1], 1)] else []
  | [] => []

/-- `%m` alternation `1[0-2]|0[1-9]|[1-9]`. -/
def monthCands : Str → List (Nat × Nat)
  | c1 :: c2 :: _ =>
      (if c1 = '1' ∧ (c2 = '0' ∨ c2 = '1' ∨ c2 = '2') then [(digitsVal [c1, c2], 2)] else []) ++
      (if c1 = '0' ∧ isDigitC c2 ∧ c2 ≠ '0' then [(digitsVal [c2], 2)] else []) ++
      (if isDigitC c1 ∧ c1 ≠ '0' then [(digitsVal [c1], 1)] else [])
  | [c1] => if isDigitC c1 ∧ c1 ≠ '0' then [(digitsVal [c1], 1)] else []
  | [] => []

/-- Two-digit year pivot: `%y` value 00–68 maps into the 2000s. -/
def y2fix (v : Nat) : Nat := if v ≤ 68 then 2000 + v else 1900 + v

/-- Full month names in `_strptime`'s alternation order (sorted by length
descending, stable), paired with month numbers. -/
def monthsFull : List (Nat × Str) :=
  [(9, lit "september"), (2, lit "february"), (11, lit "november"),
   (12, lit "december"), (1, lit "january"), (10, lit "october"),
   (8, lit "august"), (3, lit "march"), (4, lit "april"),
   (6, lit "june"), (7, lit "july"), (5, lit "may")]

/-- Abbreviated month names (all of length 3, original order). -/
def monthsAbbr : List (Nat × Str) :=
  [(1, lit "jan"), (2, lit "feb"), (3, lit "mar"), (4, lit "apr"),
   (5, lit "may"), (6, lit "jun"), (7, lit "jul"), (8, lit "aug"),
   (9, lit "sep"), (10, lit "oct"), (11, lit "nov"), (12, lit "dec")]

/-- Candidates of a month-name alternation (case-insensitive). -/
def nameCands (names : List (Nat × Str)) (cs : Str) : List (TokAct × Nat) :=
  names.filterMap fun p =>
    if lowS (cs.take p.2.length) = p.2 then some (TokAct.setM p.1, p.2.length) else none

/-- Candidate matches of one format token at the head of `cs`, in regex
priority order. -/
def tokCands : FTok → Str → List (TokAct × Nat)
  | FTok.D, cs => (dayCands cs).map fun p => (TokAct.setD p.1, p.2)
  | FTok.M, cs => (monthCands cs).map fun p => (TokAct.setM p.1, p.2)
  | FTok.Y4, cs =>
      match cs with
      | a :: b :: c :: d :: _ =>
          if isDigitC a ∧ isDigitC b ∧ isDigitC c ∧ isDigitC d then
            [(TokAct.setY (digitsVal [a, b, c, d]), 4)]
          else []
      | _ => []
  | FTok.Y2, cs =>
      match cs with
      | a :: b :: _ =>
          if isDigitC a ∧ isDigitC b then
            [(TokAct.setY (y2fix (digitsVal [a, b])), 2)]
          else []
      | _ => []
  | FTok.B, cs => nameCands monthsFull cs
  | FTok.Bab, cs => nameCands monthsAbbr cs
  | FTok.WS, cs =>
      let k := (cs.takeWhile isSpaceC).length
      (List.range k).map fun i => (TokAct.keep, k - i)
  | FTok.lit c, cs =>
      match cs with
      | c' :: _ => if c' = c then [(TokAct.keep, 1)] else []
      | [] => []

/-- Apply a token action to the `(day, month, year)` state. -/
def applyAct : TokAct → Nat × Nat × Nat → Nat × Nat × Nat
  | TokAct.setD v, (_, m, y) => (v, m, y)
  | TokAct.setM v, (d, _, y) => (d, v, y)
  | TokAct.setY v, (d, m, _) => (d, m, v)
  | TokAct.keep, st => st

/-- Backtracking matcher for a token list; the whole string must be
consumed (as `_strptime` checks `found.end() == len(data_string)`). -/
def matchF : List FTok → Str → Nat × Nat × Nat → Option (Nat × Nat × Nat)
  | [], cs, st => if cs = [] then some st else none
  | t :: ts, cs, st =>
      (tokCands t cs).findSome? fun p =>
        matchF ts (cs.drop p.2) (applyAct p.1 st)

/-- Gregorian leap year (as `datetime` validates). -/
def isLeap (y : Nat) : Bool := y % 4 = 0 ∧ (y % 100 ≠ 0 ∨ y % 400 = 0)

/-- Days in a month. -/
def dim (m y : Nat) : Nat :=
  if m = 2 then (if isLeap y then 29 else 28)
  else if m = 4 ∨ m = 6 ∨ m = 9 ∨ m = 11 then 30
  else 31

/-- `datetime(year, month, day)` constructor validation. -/
def validDMY (d m y : Nat) : Bool :=
  1 ≤ y ∧ y ≤ 9999 ∧ 1 ≤ m ∧ m ≤ 12 ∧ 1 ≤ d ∧ d ≤ dim m y

/-- One `datetime.strptime(cs, fmt)` attempt: regex match (first
assignment in priority order) then `datetime` validation; `none` models
the `ValueError` that `normalize_date` catches. -/
def parseFmt (toks : List FTok) (cs : Str) : Option (Nat × Nat × Nat) :=
  match matchF toks cs (0, 0, 0) with
  | some (d, m, y) => if validDMY d m y then some (d, m, y) else none
  | none => none

/-- `strftime('%d/%m/%Y')`.  glibc renders `%Y` with no zero padding, so a
year below 1000 yields fewer than four digits (verified CPython-on-Linux
behaviour). -/
def renderDMY (d m y : Nat) : Str :=
  pad2 d ++ ('/' :: (pad2 m ++ ('/' :: natDec y)))

/-- The format list of `normalize_date`, in order. -/
def ndFormats : List (List FTok) :=
  [ [FTok.D, FTok.lit '/', FTok.M, FTok.lit '/', FTok.Y4],           -- %d/%m/%Y
    [FTok.M, FTok.lit '/', FTok.D, FTok.lit '/', FTok.Y4],           -- %m/%d/%Y
    [FTok.Y4, FTok.lit '-', FTok.M, FTok.lit '-', FTok.D],           -- %Y-%m-%d
    [FTok.D, FTok.lit '-', FTok.M, FTok.lit '-', FTok.Y4],           -- %d-%m-%Y
    [FTok.B, FTok.WS, FTok.D, FTok.lit ',', FTok.WS, FTok.Y4],       -- %B %d, %Y
    [FTok.Bab, FTok.WS, FTok.D, FTok.lit ',', FTok.WS, FTok.Y4],     -- %b %d, %Y
    [FTok.D, FTok.lit '/', FTok.M, FTok.lit '/', FTok.Y2],           -- %d/%m/%y
    [FTok.Y4, FTok.lit '/', FTok.M, FTok.lit '/', FTok.D],           -- %Y/%m/%d
    [FTok.D, FTok.lit '-', FTok.Bab, FTok.lit '-', FTok.Y4],         -- %d-%b-%Y
    [FTok.B, FTok.WS, FTok.D, FTok.WS, FTok.Y4],                     -- %B %d %Y
    [FTok.Bab, FTok.WS, FTok.D, FTok.WS, FTok.Y4],                   -- %b %d %Y
    [FTok.D, FTok.WS, FTok.B, FTok.WS, FTok.Y4],                     -- %d %B %Y
    [FTok.D, FTok.WS, FTok.Bab, FTok.WS, FTok.Y4],                   -- %d %b %Y
    [FTok.D, FTok.lit '-', FTok.B, FTok.lit '-', FTok.Y4] ]          -- %d-%B-%Y

/-- The `for fmt in formats: try ... except ValueError: continue` loop. -/
def tryFormats (cs : Str) : Option Str :=
  ndFormats.findSome? fun f =>
    (parseFmt f cs).map fun t => renderDMY t.1 t.2.1 t.2.2

/-- Separator characters folded to `/` by the retry pass
(`re.sub(r'[.\s\-]', '/', d_str)`). -/
def isSepC (c : Char) : Bool := c = '.' ∨ isSpaceC c ∨ c = '-'

/-- The separator-replacement pass. -/
def cleanSeps (s : Str) : Str := s.map fun c => if isSepC c then '/' else c

/-- Fuelled form of `normalize_date`; the Python recursion
`return normalize_date(cleaned)` is reached only when `cleaned ≠ d_str`,
and `cleaned` contains no separator characters, so the true recursion
depth never exceeds two (`ndFuel_stable` below). -/
def ndFuel : Nat → Str → Str
  | 0, s => stripS s
  | f + 1, s =>
      if s = [] then s
      else
        let t := stripS s
        match tryFormats t with
        | some r => r
        | none =>
            let c := cleanSeps t
            if c ≠ t then ndFuel f c else t

/-- `normalize_date` from `src/utils.py`. -/
def normalize_date (s : Str) : Str := ndFuel 2 s

/-! ## `expand_serial_ranges`, `clean_serial_number`, `is_serial_in_range`
(`src/utils.py`). -/

/-- Replace every occurrence of a character (Python `str.replace`). -/
def replC (a b : Char) (s : Str) : Str := s.map fun c => if c = a then b else c

/-- `re.split(r'[,;]\s*', item)`: split on a comma/semicolon, consuming the
following whitespace run.  Fuel is the input length plus one; every step
consumes at least one character. -/
def splitCSGo : Nat → Str → Str → List Str
  | 0, s, cur => [cur.reverse ++ s]
  | _ + 1, [], cur => [cur.reverse]
  | f + 1, c :: rest, cur =>
      if c = ',' ∨ c = ';' then cur.reverse :: splitCSGo f (rest.dropWhile isSpaceC) []
      else splitCSGo f rest (c :: cur)

/-- Split an item on hard delimiters (comma/semicolon plus trailing
whitespace). -/
def splitCommaSemi (s : Str) : List Str := splitCSGo (s.length + 1) s []

/-- Split a string at the first occurrence of a delimiter string
(`str.split(d, 1)` when the delimiter occurs). -/
def splitFirst (d : Str) : Str → Option (Str × Str)
  | [] => none
  | c :: rest =>
      if d.isPrefixOf (c :: rest) then some ([], (c :: rest).drop d.length)
      else (splitFirst d rest).map fun p => (c :: p.1, p.2)

/-- Separator selection and `maxsplit=1` split of one sub-item: `~` first;
otherwise a hyphen, split at `" - "` when space-padded, at `-` when it is
the only hyphen, and not at all (single token) when hyphens are multiple.
`none` means the sub-item is kept whole. -/
def subParts (sub : Str) : Option (Str × Str) :=
  if subIn ['~'] sub then splitFirst ['~'] sub
  else if subIn ['-'] sub then
    if subIn (lit " - ") sub then splitFirst (lit " - ") sub
    else if sub.count '-' = 1 then splitFirst ['-'] sub
    else none
  else none

/-- `re.search(r'^(.*?)(\d+)$', s)`: lazy prefix plus maximal trailing
digit run. -/
def splitTrailDigits (s : Str) : Option (Str × Str) :=
  let ds := (s.reverse.takeWhile isDigitC).reverse
  if ds = [] then none else some (s.take (s.length - ds.length), ds)

/-- Non-range fallback of one sub-item: a failed `~` keeps the token
whole; a failed hyphen splits into the two halves when both are longer
than three characters. -/
def subFallback (sub start_str end_str : Str) : List Str :=
  if subIn ['~'] sub then [sub]
  else if start_str.length > 3 ∧ end_str.length > 3 then [start_str, end_str]
  else [sub]

/-- The enumeration `start..end`, rendered with the start value's
zero-padding width and its alphabetic head. -/
def expandRange (pre : Str) (w startNum endNum : Nat) : List Str :=
  (List.range (endNum + 1 - startNum)).map fun i => pre ++ zfill w (startNum + i)

/-- Range decision for one sub-item of `expand_serial_ranges`, mirroring
the Python similarity checks (cases A–D) and the logical validation
(ascending, delta at most 200). -/
def processSub (sub : Str) : List Str :=
  match subParts sub with
  | none => [sub]
  | some (p0, p1) =>
      let start_str := stripS p0
      let end_str := stripS p1
      match splitTrailDigits start_str with
      | none => subFallback sub start_str end_str
      | some (pre, sds) =>
          let startNum := digitsVal sds
          match splitTrailDigits end_str with
          | some (preE, eds) =>
              let endNum := digitsVal eds
              let sim := preE = pre ∨ replC '0' 'O' preE = replC '0' 'O' pre ∨ preE = []
              if sim ∧ ¬ (endNum < startNum ∨ endNum - startNum > 200) then
                expandRange pre sds.length startNum endNum
              else subFallback sub start_str end_str
          | none =>
              -- `elif end_str.isdigit()`: dead in practice (an all-digit
              -- end would have matched the trailing-digit pattern), kept
              -- for fidelity
              if end_str ≠ [] ∧ end_str.all isDigitC then
                let endNum := digitsVal end_str
                if startNum < endNum ∧ endNum - startNum ≤ 200 then
                  expandRange pre sds.length startNum endNum
                else subFallback sub start_str end_str
              else subFallback sub start_str end_str

/-- `expand_serial_ranges` from `src/utils.py`. -/
def expand_serial_ranges (serial_list : List Str) : List Str :=
  (serial_list.filter (· ≠ [])).flatMap fun item =>
    (splitCommaSemi item).flatMap fun sub0 =>
      let sub := stripS sub0
      if sub = [] then [] else processSub sub

/-- `re.sub(r'O(?=\d)', '0', s)`: fold `O` into `0` before a digit (the
lookahead inspects the original next character). -/
def oBeforeDigit : Str → Str
  | [] => []
  | c :: rest =>
      (if c = 'O' ∧ ((rest.head?.map isDigitC).getD false) then '0' else c)
        :: oBeforeDigit rest

/-- `re.sub(r'(?<=\d)O', '0', s)`: fold `O` into `0` after a digit (the
lookbehind inspects the original previous character). -/
def oAfterDigitGo (prev : Option Char) : Str → Str
  | [] => []
  | c :: rest =>
      (if c = 'O' ∧ (prev.map isDigitC).getD false then '0' else c)
        :: oAfterDigitGo (some c) rest

/-- `clean_serial_number` from `src/utils.py`. -/
def clean_serial_number (serial : Str) : Str :=
  if serial = [] then serial
  else
    let s1 :=
      match serial with
      | 'K' :: 'O' :: c :: rest => if isDigitC c then 'K' :: '0' :: c :: rest else serial
      | _ => serial
    if s1.any isDigitC then oAfterDigitGo none (oBeforeDigit s1) else s1

/-- Single-character split with no whitespace absorption
(`re.split(r'[\n,;]', s)`). -/
def splitChars (seps : List Char) : Str → List Str
  | [] => [[]]
  | c :: rest =>
      if c ∈ seps then [] :: splitChars seps rest
      else
        match splitChars seps rest with
        | h :: t => (c :: h) :: t
        | [] => [[c]]

/-- `is_serial_in_range` from `src/utils.py`. -/
def is_serial_in_range (target_serial db_serial_string : Str) : Bool :=
  if db_serial_string = [] then false
  else if subIn target_serial db_serial_string ∧ ¬ subIn ['~'] db_serial_string then true
  else
    let raw_list := splitChars ['\n', ',', ';'] db_serial_string
    let expanded_list := expand_serial_ranges raw_list
    let clean_target := clean_serial_number target_serial
    let target_fuzzy := replC 'O' '0' clean_target
    expanded_list.any fun item =>
      let clean_item := clean_serial_number item
      let item_fuzzy := replC 'O' '0' clean_item
      subIn clean_target clean_item ∨ subIn target_fuzzy item_fuzzy

/-! ## A small backtracking regex engine for the patterns of
`src/extractor.py`.

`matchL` enumerates the lengths a pattern can match at the head of a
suffix, in the engine's preference order (alternatives left to right,
greedy repetition longest first), which reproduces Python `re`'s leftmost,
alternation-priority, backtracking semantics for the star-height-one
patterns used here.  `gas` only bounds the recursion depth of the
evaluator; `gasFor` is far above the depth reachable on the evaluated
inputs, so it never changes a result. -/

/-- Regex abstract syntax (ASCII fragment used by the extractor). -/
inductive RE where
  | eps
  | cls (p : Char → Bool)
  | strL (ci : Bool) (cs : Str)
  | seq (a b : RE)
  | alt (a b : RE)
  | star (r : RE)
  | wb
  | nla (p : Char → Bool)
  | eos

/-- The character just before offset `k` of `cs` (for `\b`). -/
def prevAt (prev : Option Char) (cs : Str) (k : Nat) : Option Char :=
  if k = 0 then prev else cs.get? (k - 1)

/-- Word-boundary test between the previous character and the head. -/
def atWB (prev : Option Char) (cs : Str) : Bool :=
  let wPrev := (prev.map isWordC).getD false
  let wNext := ((cs.head?).map isWordC).getD false
  wPrev ≠ wNext

/-- Case-insensitive or exact literal head test. -/
def litHead (ci : Bool) (l cs : Str) : Bool :=
  if ci then lowS (cs.take l.length) = lowS l else l.isPrefixOf cs

/-- Candidate match lengths of `r` at the head of `cs`, in preference
order. -/
def matchL : Nat → RE → Option Char → Str → List Nat
  | 0, _, _, _ => []
  | _ + 1, RE.eps, _, _ => [0]
  | _ + 1, RE.cls p, _, cs =>
      match cs with
      | c :: _ => if p c then [1] else []
      | [] => []
  | _ + 1, RE.strL ci l, _, cs => if litHead ci l cs then [l.length] else []
  | g + 1, RE.seq a b, prev, cs =>
      (matchL g a prev cs).flatMap fun la =>
        (matchL g b (prevAt prev cs la) (cs.drop la)).map (la + ·)
  | g + 1, RE.alt a b, prev, cs => matchL g a prev cs ++ matchL g b prev cs
  | g + 1, RE.star r, prev, cs =>
      (((matchL g r prev cs).filter (0 < ·)).flatMap fun la =>
        (matchL g (RE.star r) (prevAt prev cs la) (cs.drop la)).map (la + ·)) ++ [0]
  | _ + 1, RE.wb, prev, cs => if atWB prev cs then [0] else []
  | _ + 1, RE.nla p, _, cs =>
      match cs with
      | c :: _ => if p c then [] else [0]
      | [] => [0]
  | _ + 1, RE.eos, _, cs => if cs = [] ∨ cs = ['\n'] then [0] else []

/-- Evaluator gas: generously above any reachable recursion depth. -/
def gasFor (cs : Str) : Nat := 512 * (cs.length + 2)

/-- Regex sequencing of a list. -/
def reSeq (l : List RE) : RE := l.foldr RE.seq RE.eps

/-- Regex alternation of a list, priority left to right. -/
def reAlt (l : List RE) : RE := l.foldr RE.alt (RE.cls fun _ => false)

/-- Case-insensitive literal from a Lean string. -/
def reStrCI (s : String) : RE := RE.strL true (lit s)

/-- Exact literal from a Lean string. -/
def reStr (s : String) : RE := RE.strL false (lit s)

/-- Greedy `r?`. -/
def reOpt (r : RE) : RE := RE.alt r RE.eps

/-- Greedy `r+`. -/
def rePlus (r : RE) : RE := RE.seq r (RE.star r)

/-- Greedy nested optional chain for `{0,n}`. -/
def reUpTo : Nat → RE → RE
  | 0, _ => RE.eps
  | n + 1, r => reOpt (RE.seq r (reUpTo n r))

/-- Greedy bounded repetition `r{lo,hi}`. -/
def reRep (r : RE) (lo hi : Nat) : RE :=
  RE.seq (reSeq (List.replicate lo r)) (reUpTo (hi - lo) r)

/-- Greedy unbounded repetition `r{n,}`. -/
def reRepAtLeast (r : RE) (n : Nat) : RE :=
  RE.seq (reSeq (List.replicate n r)) (RE.star r)

/-- Leftmost match span `(start, length)` of `r` in `s` (`re.search`). -/
def reSearchGo (r : RE) : Option Char → Str → Nat → Option (Nat × Nat)
  | prev, cs, pos =>
      match (matchL (gasFor cs) r prev cs).head? with
      | some l => some (pos, l)
      | none =>
          match cs with
          | [] => none
          | c :: rest => reSearchGo r (some c) rest (pos + 1)

/-- Leftmost match span of `r` in `s`. -/
def reSearch (r : RE) (s : Str) : Option (Nat × Nat) := reSearchGo r none s 0

/-- Whether `r` matches somewhere in `s`. -/
def reHas (r : RE) (s : Str) : Bool := (reSearch r s).isSome

/-- `re.match` semantics: pattern (which carries its own `$` when the
Python pattern does) anchored at the start of `s`. -/
def reMatch0 (r : RE) (s : Str) : Bool := matchL (gasFor s) r none s ≠ []

/-- Non-overlapping `finditer` over a two-part pattern, returning
`(absolute start, length of part A, length of part B)` triples; the first
`(la, lb)` pair in combined priority order is the regex engine's match. -/
def findPairsGo (A B : RE) : Nat → Option Char → Str → Nat → List (Nat × Nat × Nat)
  | 0, _, _, _ => []
  | f + 1, prev, cs, pos =>
      let combo : Option (Nat × Nat) :=
        (matchL (gasFor cs) A prev cs).findSome? fun la =>
          ((matchL (gasFor cs) B (prevAt prev cs la) (cs.drop la)).head?).map fun lb => (la, lb)
      match combo with
      | some (la, lb) =>
          if la + lb = 0 then
            match cs with
            | [] => []
            | c :: rest => findPairsGo A B f (some c) rest (pos + 1)
          else
            (pos, la, lb) ::
              findPairsGo A B f (prevAt prev cs (la + lb)) (cs.drop (la + lb)) (pos + la + lb)
      | none =>
          match cs with
          | [] => []
          | c :: rest => findPairsGo A B f (some c) rest (pos + 1)

/-- Non-overlapping two-part `finditer` over `s`. -/
def findPairs (A B : RE) (s : Str) : List (Nat × Nat × Nat) :=
  findPairsGo A B (s.length + 1) none s 0

/-- Non-overlapping `finditer` of a single pattern, as spans. -/
def findAll (r : RE) (s : Str) : List (Nat × Nat) :=
  (findPairs r RE.eps s).map fun t => (t.1, t.2.1)

/-! ## `extract_date` (`src/extractor.py`). -/

/-- `\d`. -/
def reDig : RE := RE.cls isDigitC

/-- `[. ]`. -/
def reDotSp : RE := RE.cls fun c => c = '.' ∨ c = ' '

/-- `\s`. -/
def reWsp : RE := RE.cls isSpaceC

/-- Month-abbreviation alternation `(?:Jan|...|Dec)` (searched with
`re.IGNORECASE`). -/
def reMonAbbr : RE :=
  reAlt ([ "Jan", "Feb", "Mar", "Apr", "May", "Jun", "Jul", "Aug", "Sep",
           "Oct", "Nov", "Dec" ].map reStrCI)

/-- `[a-z]*` under `re.IGNORECASE`: any ASCII letters. -/
def reLetters : RE := RE.star (RE.cls isAlphaC)

/-- The six stand-alone date patterns of `extract_date`, in order. -/
def datePatterns : List RE :=
  [ reSeq [RE.wb, reRep reDig 1 2, reStr "/", reRep reDig 1 2, reStr "/",
           reRep reDig 4 4, RE.wb],
    reSeq [RE.wb, reRep reDig 4 4, reStr "-", reRep reDig 2 2, reStr "-",
           reRep reDig 2 2, RE.wb],
    reSeq [RE.wb, reRep reDig 1 2, reDotSp, reRep reDig 1 2, reDotSp,
           reRep reDig 4 4, RE.wb],
    reSeq [RE.wb, reRep reDig 4 4, reDotSp, reRep reDig 1 2, reDotSp,
           reRep reDig 1 2, RE.wb],
    reSeq [RE.wb, reMonAbbr, reLetters, reStr " ", reRep reDig 1 2,
           reOpt (reStr ","), RE.star reWsp, reRep reDig 4 4, RE.wb],
    reSeq [RE.wb, reRep reDig 1 2, reStr " ", reMonAbbr, reLetters,
           reStr " ", reRep reDig 4 4, RE.wb] ]

/-- `re.sub(r',(\d)', r', \1', s)`: repair a missing space after a
comma. -/
def commaFix : Str → Str
  | ',' :: c :: rest =>
      if isDigitC c then ',' :: ' ' :: c :: commaFix rest
      else ',' :: commaFix (c :: rest)
  | c :: rest => c :: commaFix rest
  | [] => []

/-- Label part of the context pattern
`(?:Date|Dated|Issue Date)[:\.\s]*`. -/
def ctxLabelRE : RE :=
  reSeq [reAlt [reStrCI "Date", reStrCI "Dated", reStrCI "Issue Date"],
         RE.star (RE.cls fun c => c = ':' ∨ c = '.' ∨ isSpaceC c)]

/-- Captured part of the context pattern `([A-Za-z0-9\/\.\-, ]{8,20})`. -/
def ctxValRE : RE :=
  reRep (RE.cls fun c =>
    isAlnumC c ∨ c = '/' ∨ c = '.' ∨ c = '-' ∨ c = ',' ∨ c = ' ') 8 20

/-- `re.sub(r'[^\w\/\.\-, ]', '', s)`. -/
def ctxKeep (s : Str) : Str :=
  s.filter fun c => isWordC c ∨ c = '/' ∨ c = '.' ∨ c = '-' ∨ c = ',' ∨ c = ' '

/-- `extract_date` on a non-empty text. -/
def extractDateStr (t : Str) : Option Str :=
  match datePatterns.findSome? fun p => reSearch p t with
  | some (pos, len) => some (normalize_date (commaFix ((t.drop pos).take len)))
  | none =>
      match (findPairs ctxLabelRE ctxValRE t).head? with
      | some (pos, la, lb) =>
          let potential := stripS ((t.drop (pos + la)).take lb)
          let normalized := normalize_date (ctxKeep potential)
          if normalized.any isDigitC then some normalized else none
      | none => none

/-- `extract_date` from `src/extractor.py` (`if not text: return None`). -/
def extract_date (o : Option Str) : Option Str :=
  match o with
  | none => none
  | some t => if t = [] then none else extractDateStr t

/-! ## `extract_serial_number` (`src/extractor.py`). -/

/-- The keyword list after `keywords.sort(key=len, reverse=True)`
(Python's sort is stable, so ties keep their original order). -/
def snKeywords : List String :=
  [ "Certificate No.", "Certificate No", "Serial Number", "Seri Number",
    "Serial No.", "Serial N0", "Serial No", "Ser. Nos.", "Ser.Nos.",
    "Ser. Nos", "Ref No.", "Ser.Nos", "Ser.No.", "Ser Nos", "Ref No",
    "Serial", "Ser.No", "S/N", "S.N", "No:", "No.", "SN" ]

/-- Keyword alternation (compiled with `re.IGNORECASE`). -/
def snKeywordAlt : RE := reAlt (snKeywords.map reStrCI)

/-- Part A of the same-line pattern:
`\b(?P<label>...)(?![A-Za-z0-9])[:\.\t \-]*`. -/
def snSameA : RE :=
  reSeq [RE.wb, snKeywordAlt, RE.nla isAlnumC,
         RE.star (RE.cls fun c => c = ':' ∨ c = '.' ∨ c = '\t' ∨ c = ' ' ∨ c = '-')]

/-- Part B (group 2) of the same-line pattern:
`([A-Za-z0-9]+(?:\s*[-~/._,]\s*[A-Za-z0-9]+)*)`. -/
def snSameB : RE :=
  RE.seq (rePlus (RE.cls isAlnumC))
    (RE.star (reSeq [RE.star reWsp,
                     RE.cls (fun c => c = '-' ∨ c = '~' ∨ c = '/' ∨ c = '.' ∨ c = '_' ∨ c = ','),
                     RE.star reWsp, rePlus (RE.cls isAlnumC)]))

/-- Context nouns searched in the thirty characters before a match. -/
def contextNouns : List String :=
  ["Tube", "Anode", "Inverter", "Generator", "Tank", "Detector"]

/-- Noise keywords (substring test on lowered strings). -/
def noiseKeywords : List String :=
  [ "Lane", "Street", "Ward", "District", "Hanoi", "Vietnam",
    "pcs", "pes", "Quantity", "Invoice", "EA",
    "MORITA", "Morita", "MFG", "CORP", "Corporation", "Company", "Ltd",
    "Limited", "Inc", "Incorporated", "Japan", "JAPAN", "USA", "China",
    "Model", "Production", "Year", "Kyoto", "Osaka", "Tokyo",
    "and", "the", "with", "made", "in", "dated", "kind", "type", "ref",
    "certificate", "city", "date" ]

/-- `[\s\-\.]?` of the phone pattern. -/
def rePhSep : RE := reOpt (RE.cls fun c => isSpaceC c ∨ c = '-' ∨ c = '.')

/-- `^\+?\d{1,3}[\s\-\.]?\(?\d{1,4}\)?[\s\-\.]?\d{3,4}[\s\-\.]?\d{3,4}$`. -/
def phoneRE : RE :=
  reSeq [reOpt (reStr "+"), reRep reDig 1 3, rePhSep, reOpt (reStr "("),
         reRep reDig 1 4, reOpt (reStr ")"), rePhSep, reRep reDig 3 4,
         rePhSep, reRep reDig 3 4, RE.eos]

/-- `is_noise` from `extract_serial_number`. -/
def isNoiseV (val : Str) : Bool :=
  noiseKeywords.any (fun nk => subIn (lowS (lit nk)) (lowS val)) ∨
  reMatch0 (reSeq [rePlus reDig, reStr "/", rePlus reDig, reStr " - ",
                   rePlus reDig, reStr "/", rePlus reDig, RE.eos]) val ∨
  reMatch0 (reSeq [rePlus reDig, reStr "/", rePlus reDig, RE.eos]) val ∨
  reMatch0 (reSeq [reRep (RE.cls isUpperC) 2 4, reRep reDig 1 3, RE.eos]) val ∨
  reMatch0 (reSeq [reRepAtLeast (RE.cls isUpperC) 3, RE.eos]) val ∨
  reMatch0 phoneRE val ∨
  subIn (lit "www.") (lowS val) ∨ subIn (lit ".com") (lowS val) ∨
  subIn (lit ".co.jp") (lowS val)

/-- Tail-anchored `re.sub(..., '')` (used for `\s+www\b.*$`,
`\s+http.*$`): remove the leftmost match; with these patterns the
remainder after the match end is empty or a final newline, on which the
pattern cannot match again. -/
def subTail (r : RE) (s : Str) : Str :=
  match reSearch r s with
  | some (p, l) => s.take p ++ s.drop (p + l)
  | none => s

/-- `re.sub(r'\s+www\b.*$', '', raw_val, flags=re.IGNORECASE)`. -/
def subWwwTail (s : Str) : Str :=
  subTail (reSeq [rePlus reWsp, reStrCI "www", RE.wb,
                  RE.star (RE.cls (· ≠ '\n')), RE.eos]) s

/-- `re.sub(r'\s+http.*$', '', raw_val, flags=re.IGNORECASE)`. -/
def subHttpTail (s : Str) : Str :=
  subTail (reSeq [rePlus reWsp, reStrCI "http",
                  RE.star (RE.cls (· ≠ '\n')), RE.eos]) s

/-- `re.split(r'[,;\n]|\s{2,}', raw_val)`: a single `,`/`;`/newline, or a
whitespace run of length at least two (greedy). -/
def splitDelimsGo : Nat → Str → Str → List Str
  | 0, s, cur => [cur.reverse ++ s]
  | _ + 1, [], cur => [cur.reverse]
  | f + 1, c :: rest, cur =>
      if c = ',' ∨ c = ';' ∨ c = '\n' then cur.reverse :: splitDelimsGo f rest []
      else if isSpaceC c ∧ ((rest.head?.map isSpaceC).getD false) then
        cur.reverse :: splitDelimsGo f (rest.dropWhile isSpaceC) []
      else splitDelimsGo f rest (c :: cur)

/-- Split a captured value on delimiters. -/
def splitDelims (s : Str) : List Str := splitDelimsGo (s.length + 1) s []

/-- `re.sub(r'[.\s]+$', '', val)`. -/
def trimDotWs (s : Str) : Str :=
  (s.reverse.dropWhile fun c => c = '.' ∨ isSpaceC c).reverse

/-- `re.sub(r'\s+www$', '', val, flags=re.IGNORECASE)`: at this point the
value has no trailing whitespace, so the match (if any) is the suffix
`whitespace-run ++ "www"`. -/
def trimWwwEnd (s : Str) : Str :=
  if 4 ≤ s.length ∧ lowS (s.drop (s.length - 3)) = lit "www" ∧
      ((s.take (s.length - 3)).getLast?.map isSpaceC).getD false then
    ((s.take (s.length - 3)).reverse.dropWhile isSpaceC).reverse
  else s

/-- The part of the preceding text after its last newline
(`preceding_text[line_start+1:]`). -/
def afterLastNL (s : Str) : Str :=
  (s.reverse.takeWhile (· ≠ '\n')).reverse

/-- Context-noun annotation: first noun found (as `\bnoun\b`,
case-insensitive) in the thirty characters before the match on the same
line. -/
def findNoun (t : Str) (pos : Nat) : Option String :=
  let preceding := afterLastNL ((t.take pos).drop (pos - 30))
  contextNouns.findSome? fun noun =>
    if reHas (reSeq [RE.wb, reStrCI noun, RE.wb]) preceding then some noun else none

/-- Candidates of the same-line pass, in discovery order, after all the
per-candidate guards (the running `seen` set is applied afterwards by
`addIfNew`, which none of these guards consult). -/
def samelineCands (t : Str) : List Str :=
  (findPairs snSameA snSameB t).flatMap fun m =>
    let pos := m.1
    let rawVal0 := stripS ((t.drop (pos + m.2.1)).take m.2.2)
    if lowS rawVal0 = lit "number" then []
    else
      let rawVal := subHttpTail (subWwwTail rawVal0)
      (splitDelims rawVal).flatMap fun val0 =>
        let val1 := stripS val0
        if val1 = [] ∨ val1.length < 4 then []
        else
          let val := trimWwwEnd (trimDotWs val1)
          if isNoiseV val then []
          else
            match findNoun t pos with
            | some noun => [val ++ lit " (" ++ lit noun ++ [')']]
            | none => [val]

/-- `\b(keywords)\b` of the columnar pass. -/
def labelOnlyRE : RE := reSeq [RE.wb, snKeywordAlt, RE.wb]

/-- Group of the columnar token pattern
`([A-Z0-9]{5,}(?:\s*[-~/._]\s*[A-Za-z0-9]+)*)` (no `re.IGNORECASE`). -/
def snColG : RE :=
  RE.seq (reRepAtLeast (RE.cls fun c => isUpperC c ∨ isDigitC c) 5)
    (RE.star (reSeq [RE.star reWsp,
                     RE.cls (fun c => c = '-' ∨ c = '~' ∨ c = '/' ∨ c = '.' ∨ c = '_'),
                     RE.star reWsp, rePlus (RE.cls isAlnumC)]))

/-- The columnar token pattern with its word boundaries. -/
def snColRE : RE := reSeq [RE.wb, snColG, RE.wb]

/-- Candidates of the columnar pass: for each line containing a bare
label, scan the next nine lines for tokens, filtering table noise. -/
def columnarCands (t : Str) : List Str :=
  let lines := splitChars ['\n'] t
  (List.range lines.length).flatMap fun i =>
    let line := (lines.get? i).getD []
    if reHas labelOnlyRE line then
      (List.range' (i + 1) (min lines.length (i + 10) - (i + 1))).flatMap fun j =>
        let lj := (lines.get? j).getD []
        (findAll snColRE lj).flatMap fun m =>
          let val := trimWwwEnd (stripS ((lj.drop m.1).take m.2))
          if isNoiseV val then [] else [val]
    else []

/-- `extract_serial_number` from `src/extractor.py`.  The two passes
produce state-independent candidate streams; the shared `seen` set is the
`addIfNew` fold. -/
def extract_serial_number (o : Option Str) : List Str :=
  match o with
  | none => []
  | some t =>
      if t = [] then []
      else (samelineCands t ++ columnarCands t).foldl addIfNew []

/-! ## `extract_from_tables` (`src/extractor.py`).

The pdfplumber call is external; its result is the list of tables
(each a list of rows of optional cell strings).  All state threading of
the Python loops is reproduced, including the `IndexError` that
`table[i+1][col_idx]` can raise on a short row: the surrounding
`try/except` then returns the data accumulated so far. -/

/-- A table cell (`None` or a string). -/
abbrev Cell := Option Str

/-- A table row. -/
abbrev Row := List Cell

/-- A table. -/
abbrev Table := List Row

/-- `str(cell).strip() if cell else ""` (row cleaning). -/
def cellClean (c : Cell) : Str :=
  match c with
  | none => []
  | some s => if s = [] then [] else stripS s

/-- `str(cell).strip()` on a raw cell: Python renders `None` as the
string `"None"`. -/
def cellRaw (c : Cell) : Str :=
  match c with
  | none => lit "None"
  | some s => stripS s

/-- Partial result of the table extractor (`serials = []` models the
absent `"serial_number"` key). -/
structure TData where
  date : Option Str
  serials : List Str
deriving DecidableEq

/-- The empty partial result. -/
def TData.empty : TData := ⟨none, []⟩

/-- Python truthiness of an optional string. -/
def pyTruthyO : Option Str → Bool
  | none => false
  | some s => s ≠ []

/-- Serial-header keywords (`k.lower() in cell_lower`). -/
def serialHdrKws : List Str :=
  [lit "serial number", lit "serial no.", lit "seri number", lit "seri"]

/-- Date-header keywords. -/
def dateHdrKws : List Str := [lit "date", lit "issue date", lit "dated"]

/-- Column noise values. -/
def noiseColVals : List Str :=
  [lit "product type", lit "type", lit "product", lit "power", lit "mac", lit "window"]

/-- Downward column scan under a serial header: up to fourteen rows below,
keeping non-empty values longer than four characters that are not column
noise. -/
def scanCol (table : Table) (i ci : Nat) : List Str :=
  (List.range' (i + 1) (min table.length (i + 15) - (i + 1))).flatMap fun r =>
    let row := (table.get? r).getD []
    if ci < row.length then
      let v := cellRaw ((row.get? ci).getD none)
      if v ≠ [] ∧ v.length > 4 ∧ ¬ noiseColVals.any (fun n => subIn n (lowS v)) then [v]
      else []
    else []

/-- Process one cell; the boolean result signals the `IndexError` abort
(date lookup one row down into a row that is too short). -/
def stepCell (table : Table) (i : Nat) (rowText : List Str) (ci : Nat) (st : TData) :
    TData × Bool :=
  let cellLower := lowS ((rowText.get? ci).getD [])
  let st :=
    if serialHdrKws.any (fun k => subIn k cellLower) then
      let found := scanCol table i ci
      if found ≠ [] then { st with serials := st.serials ++ found } else st
    else st
  if dateHdrKws.any (fun k => subIn k cellLower) then
    let st :=
      if ci + 1 < rowText.length then
        let v := (rowText.get? (ci + 1)).getD []
        if v ≠ [] then { st with date := some v } else st
      else st
    if ¬ pyTruthyO st.date ∧ i + 1 < table.length then
      let row' := (table.get? (i + 1)).getD []
      if ci < row'.length then
        let v := cellRaw ((row'.get? ci).getD none)
        (if v ≠ [] then { st with date := some v } else st, false)
      else (st, true)
    else (st, false)
  else (st, false)

/-- Fold one row's cells, stopping on abort. -/
def foldCellsGo (table : Table) (i : Nat) (rowText : List Str) :
    Nat → Nat → TData → TData × Bool
  | 0, _, st => (st, false)
  | n + 1, ci, st =>
      let (st', ab) := stepCell table i rowText ci st
      if ab then (st', true) else foldCellsGo table i rowText n (ci + 1) st'

/-- Fold the rows of one table. -/
def foldRowsGo (table : Table) : Nat → Nat → TData → TData × Bool
  | 0, _, st => (st, false)
  | n + 1, i, st =>
      let rowText := ((table.get? i).getD []).map cellClean
      let (st', ab) := foldCellsGo table i rowText rowText.length 0 st
      if ab then (st', true) else foldRowsGo table n (i + 1) st'

/-- Fold a list of tables. -/
def foldTables : List Table → TData → TData × Bool
  | [], st => (st, false)
  | t :: ts, st =>
      let (st', ab) := foldRowsGo t t.length 0 st
      if ab then (st', true) else foldTables ts st'

/-- `extract_from_tables` from `src/extractor.py`, on the pure table
data. -/
def extract_from_tables (tables : List Table) : TData :=
  (foldTables tables TData.empty).1

/-! ## `extract_data` (`src/extractor.py`): the orchestrator. -/

/-- One document as seen by the orchestrator: the results of its external
collaborators.  `rawText`/`ocrText` are `none` when the corresponding
extraction failed (the Python functions return `None` on exception). -/
structure Doc where
  rawText : Option Str
  hasImg : Bool
  tables : List Table
  ocrText : Option Str

/-- `is_scanned = not text or len(text.strip()) < 10`. -/
def is_scanned (d : Doc) : Bool :=
  ¬ pyTruthyO d.rawText ∨ (stripS (d.rawText.getD [])).length < 10

/-- The table-supplement merge of one serial candidate into the running
list: break at the first entry in a substring relation, replacing it in
place when the new value is longer; append when no entry relates. -/
def mergeTableSn : List Str → Str → List Str
  | [], sn => [sn]
  | e :: rest, sn =>
      if subIn sn e ∨ subIn e sn then
        if e.length < sn.length then sn :: rest else e :: rest
      else e :: mergeTableSn rest sn

/-- The OCR-stage merge: append unless an exact duplicate is present
(`if sn not in data["serial_number"]`). -/
def ocrAdd (acc : List Str) (sn : Str) : List Str :=
  if sn ∈ acc then acc else acc ++ [sn]

/-- The record after the digital pass and the table supplement:
`(data["date"], data["serial_number"])` just before the completeness
check. -/
def afterTableData (d : Doc) : Option Str × List Str :=
  let td := extract_from_tables d.tables
  let date0 := extract_date d.rawText
  let sns0 := extract_serial_number d.rawText
  let date1 := if pyTruthyO td.date ∧ ¬ pyTruthyO date0 then extract_date td.date else date0
  let sns1 := td.serials.foldl mergeTableSn sns0
  (date1, sns1)

/-- `is_digital_complete = bool(data["date"] and data["serial_number"])`. -/
def is_digital_complete (d : Doc) : Bool :=
  let p := afterTableData d
  pyTruthyO p.1 ∧ p.2 ≠ []

/-- The OCR trigger of `extract_data` (line 311):
`force_ocr or is_scanned or (not is_digital_complete and has_img) or not
is_digital_complete`. -/
def should_ocr (d : Doc) (force_ocr : Bool) : Bool :=
  force_ocr ∨ is_scanned d ∨ (¬ is_digital_complete d ∧ d.hasImg) ∨ ¬ is_digital_complete d

/-- Final formatting: join the deduplicated serial list with newlines, or
`None` when empty. -/
def finalizeRec (dt : Option Str) (sns : List Str) : Option Str × Option Str :=
  (dt, if sns ≠ [] then some (joinNL (dedupKeepFirst sns)) else none)

/-- `extract_data` from `src/extractor.py`: returns
`((date, serial_number), method)`.  The pipeline stages are Digital →
Table supplement → OCR; no AI fallback stage exists in this function. -/
def extract_data (d : Doc) (force_ocr : Bool) : (Option Str × Option Str) × Str :=
  let p := afterTableData d
  let dt0 := p.1
  let sns0 := p.2
  if should_ocr d force_ocr then
    if pyTruthyO d.ocrText then
      let method := if pyTruthyO dt0 ∨ sns0 ≠ [] then lit "Regex + OCR" else lit "OCR (Tesseract)"
      let ocrDate := extract_date d.ocrText
      let dt1 := if pyTruthyO ocrDate ∧ (¬ pyTruthyO dt0 ∨ is_scanned d) then ocrDate else dt0
      let sns1 := (extract_serial_number d.ocrText).foldl ocrAdd sns0
      (finalizeRec dt1 sns1, method)
    else
      (finalizeRec dt0 sns0,
       if is_scanned d ∨ force_ocr then lit "OCR (Tesseract) (Failed)" else lit "Regex")
  else (finalizeRec dt0 sns0, lit "Regex")

/-! ## Concrete fixtures used in the theorems below. -/

/-- A table supplying a complete record: a serial column under a
`Seri Number` header and a date below a `Date` header. -/
def tblComplete : Table :=
  [[some (lit "Seri Number"), some (lit "Date")],
   [some (lit "SN-111"), some (lit "2025-01-01")]]

/-- The table of the repository's own `test_extract_from_tables`: header
`Serial No`, three `SN-x` values below it, then an empty row. -/
def tblSNTest : Table :=
  [[some (lit "Item"), some (lit "Description")],
   [some (lit "Serial No"), some (lit "")],
   [some (lit "SN-1"), some (lit "")],
   [some (lit "SN-2"), some (lit "")],
   [some (lit "SN-3"), some (lit "")],
   [some (lit ""), some (lit "")]]

/-- A serial column interrupted by an empty cell. -/
def tblEmptyCell : Table :=
  [[some (lit "Serial No")], [some (lit "")], [some (lit "SN-222")]]

/-- A scanned document (no digital text layer) whose tables alone supply
a complete record. -/
def docScannedTables : Doc := ⟨none, false, [tblComplete], none⟩

/-- A document with a digital text layer that yields nothing, no tables,
and a failing OCR collaborator (the scenario of the repository's
`test_extract_data_ai_fallback`). -/
def docNoisy : Doc := ⟨some (lit "Random noisy text"), false, [], none⟩

/-- A document whose digital text alone yields a complete record. -/
def docCompleteText : Doc :=
  ⟨some (lit "Serial No: ABCD-99999 dated 12/05/2023"), false, [], none⟩

/-- A document whose OCR pass returns a serial that is a proper substring
of the digitally extracted one. -/
def docOcrMerge : Doc :=
  ⟨some (lit "Serial No: ABCD-99999"), false, [], some (lit "S/N: ABCD-9999")⟩

/-- A fully scanned, empty document with failing OCR. -/
def docScannedEmpty : Doc := ⟨none, false, [], none⟩

/-! ## Helper lemmas. -/

theorem isPrefixOf_map {a b : Str} (f : Char → Char) (h : a.isPrefixOf b = true) :
    (a.map f).isPrefixOf (b.map f) = true := by
  induction a generalizing b with
  | nil => simp [List.isPrefixOf]
  | cons x xs ih =>
      cases b with
      | nil => simp [List.isPrefixOf] at h
      | cons y ys =>
          simp only [List.isPrefixOf, Bool.and_eq_true, beq_iff_eq] at h
          simp only [List.map_cons, List.isPrefixOf, Bool.and_eq_true, beq_iff_eq]
          exact ⟨by rw [h.1], ih h.2⟩

theorem subIn_map {a b : Str} (f : Char → Char) (h : subIn a b = true) :
    subIn (a.map f) (b.map f) = true := by
  induction b with
  | nil =>
      simp only [subIn, List.isEmpty_iff] at h
      simp [h, subIn]
  | cons y ys ih =>
      simp only [subIn, Bool.or_eq_true] at h
      rcases h with h | h
      · simp only [List.map_cons, subIn, Bool.or_eq_true]
        exact Or.inl (by simpa using isPrefixOf_map f h)
      · simp only [List.map_cons, subIn, Bool.or_eq_true]
        exact Or.inr (ih h)

theorem replC_eq_map (a b : Char) (s : Str) :
    replC a b s = s.map fun c => if c = a then b else c := rfl

theorem foldO_oBeforeDigit (t : Str) :
    replC 'O' '0' (oBeforeDigit t) = replC 'O' '0' t := by
  induction t with
  | nil => rfl
  | cons c rest ih =>
      simp only [oBeforeDigit, replC, List.map_cons] at *
      refine congrArg₂ List.cons ?_ ih
      split
      · next hc => simp [hc.1]
      · rfl

theorem foldO_oAfterDigit (p : Option Char) (t : Str) :
    replC 'O' '0' (oAfterDigitGo p t) = replC 'O' '0' t := by
  induction t generalizing p with
  | nil => rfl
  | cons c rest ih =>
      have ih' := ih (some c)
      simp only [oAfterDigitGo, replC, List.map_cons] at *
      refine congrArg₂ List.cons ?_ ih'
      split
      · next hc => simp [hc.1]
      · rfl

theorem foldO_clean (s : Str) :
    replC 'O' '0' (clean_serial_number s) = replC 'O' '0' s := by
  unfold clean_serial_number
  split
  · rfl
  · have step1 : ∀ s1 : Str,
        replC 'O' '0' (if s1.any isDigitC then oAfterDigitGo none (oBeforeDigit s1) else s1) =
          replC 'O' '0' s1 := by
      intro s1
      split
      · rw [foldO_oAfterDigit, foldO_oBeforeDigit]
      · rfl
    rw [step1]
    split
    · next c rest _hpat =>
        split
        · simp [replC]
        · rfl
    · rfl

theorem mergeTableSn_append (l : List Str) (sn : Str)
    (h : ∀ e ∈ l, ¬ (subIn sn e = true ∨ subIn e sn = true)) :
    mergeTableSn l sn = l ++ [sn] := by
  induction l with
  | nil => rfl
  | cons e rest ih =>
      have he := h e (by simp)
      simp only [mergeTableSn]
      rw [if_neg (by simpa using he), ih fun x hx => h x (by simp [hx])]
      rfl

theorem mergeTableSn_replace (pre : List Str) (e : Str) (rest : List Str) (sn : Str)
    (hpre : ∀ x ∈ pre, ¬ (subIn sn x = true ∨ subIn x sn = true))
    (he : subIn sn e = true ∨ subIn e sn = true) :
    mergeTableSn (pre ++ e :: rest) sn =
      pre ++ (if e.length < sn.length then sn else e) :: rest := by
  induction pre with
  | nil =>
      simp only [List.nil_append, mergeTableSn]
      rw [if_pos (by simpa using he)]
      split <;> rfl
  | cons x xs ih =>
      have hx := hpre x (by simp)
      simp only [List.cons_append, mergeTableSn, List.append_eq]
      rw [if_neg (by simpa using hx), ih fun y hy => hpre y (by simp [hy])]

theorem addIfNew_nodup {acc : List Str} (v : Str) (h : acc.Nodup) :
    (addIfNew acc v).Nodup := by
  unfold addIfNew
  split
  · exact h
  · next hv => simpa [List.nodup_append, h] using hv

theorem foldl_addIfNew_nodup (l : List Str) (acc : List Str) (h : acc.Nodup) :
    (l.foldl addIfNew acc).Nodup := by
  induction l generalizing acc with
  | nil => exact h
  | cons v rest ih => exact ih _ (addIfNew_nodup v h)

theorem cleanSeps_no_space {s : Str} {c : Char} (hc : c ∈ cleanSeps s) :
    isSpaceC c = false := by
  simp only [cleanSeps, List.mem_map] at hc
  obtain ⟨a, -, ha⟩ := hc
  subst ha
  split
  · decide
  · next h =>
      by_contra hsp
      simp only [Bool.not_eq_false] at hsp
      exact h (by simp [isSepC, hsp])

theorem dropWhile_eq_self_of (p : Char → Bool) (s : Str)
    (h : ∀ c ∈ s, p c = false) : s.dropWhile p = s := by
  cases s with
  | nil => rfl
  | cons c t => simp [List.dropWhile_cons, h c (by simp)]

theorem stripS_of_no_space {s : Str} (h : ∀ c ∈ s, isSpaceC c = false) :
    stripS s = s := by
  unfold stripS
  rw [dropWhile_eq_self_of _ _ h]
  rw [dropWhile_eq_self_of _ _ fun c hc => h c (List.mem_reverse.mp hc),
    List.reverse_reverse]

theorem stripS_cleanSeps (s : Str) : stripS (cleanSeps s) = cleanSeps s :=
  stripS_of_no_space fun _ hc => cleanSeps_no_space hc

theorem cleanSeps_idem (s : Str) : cleanSeps (cleanSeps s) = cleanSeps s := by
  unfold cleanSeps
  rw [List.map_map]
  refine List.map_congr_left fun a _ => ?_
  by_cases h : isSepC a = true
  · simp [h]
  · simp [h]

theorem cleanSeps_eq_nil_iff (s : Str) : cleanSeps s = [] ↔ s = [] := by
  unfold cleanSeps
  exact List.map_eq_nil_iff

theorem ndFuel_succ (f : Nat) (s : Str) :
    ndFuel (f + 1) s =
      (if s = [] then s
       else
         match tryFormats (stripS s) with
         | some r => r
         | none =>
             if cleanSeps (stripS s) ≠ stripS s then ndFuel f (cleanSeps (stripS s))
             else stripS s) := rfl

theorem ndFuel_fix (k : Nat) (c : Str) (h1 : stripS c = c) (h2 : cleanSeps c = c) :
    ndFuel (k + 1) c = ndFuel 1 c := by
  rw [ndFuel_succ k, ndFuel_succ 0, h1, h2]
  simp

theorem ndFuel_two_stable (n : Nat) (s : Str) : ndFuel (n + 2) s = ndFuel 2 s := by
  show ndFuel (n + 1 + 1) s = ndFuel (1 + 1) s
  rw [ndFuel_succ (n + 1), ndFuel_succ 1,
    ndFuel_fix n (cleanSeps (stripS s)) (stripS_cleanSeps (stripS s))
      (cleanSeps_idem (stripS s))]

/-! ## Groundwork for the normalization-stability analysis: decimal
rendering and the strptime matcher on rendered dates. -/

theorem decGo_fuel_irrel (n : Nat) : ∀ f g, n < f → n < g → decGo f n = decGo g n := by
  induction n using Nat.strong_induction_on with
  | _ n ih =>
      intro f g hf hg
      match f, g with
      | f' + 1, g' + 1 =>
          by_cases h : n < 10
          · simp [decGo, h]
          · have hdiv : n / 10 < n := Nat.div_lt_self (by omega) (by omega)
            simp only [decGo, if_neg h]
            rw [ih (n / 10) hdiv f' g' (by omega) (by omega)]

theorem natDec_step (y : Nat) (h : 10 ≤ y) :
    natDec y = natDec (y / 10) ++ [digC (y % 10)] := by
  have hdiv : y / 10 < y := Nat.div_lt_self (by omega) (by omega)
  show decGo (y + 1) y = _
  have : decGo (y + 1) y = if y < 10 then [digC y] else decGo y (y / 10) ++ [digC (y % 10)] := rfl
  rw [this, if_neg (by omega), decGo_fuel_irrel (y / 10) y (y / 10 + 1) (by omega) (by omega)]
  rfl

theorem natDec_small (y : Nat) (h : y < 10) : natDec y = [digC y] := by
  show decGo (y + 1) y = _
  have : decGo (y + 1) y = if y < 10 then [digC y] else decGo y (y / 10) ++ [digC (y % 10)] := rfl
  rw [this, if_pos h]

theorem natDec2 (y : Nat) (h1 : 10 ≤ y) (h2 : y < 100) :
    natDec y = [digC (y / 10), digC (y % 10)] := by
  rw [natDec_step y h1, natDec_small (y / 10) (by omega)]
  rfl

theorem natDec3 (y : Nat) (h1 : 100 ≤ y) (h2 : y < 1000) :
    natDec y = [digC (y / 100), digC (y / 10 % 10), digC (y % 10)] := by
  rw [natDec_step y (by omega), natDec2 (y / 10) (by omega) (by omega),
    Nat.div_div_eq_div_mul]
  rfl

theorem natDec4 (y : Nat) (h1 : 1000 ≤ y) (h2 : y ≤ 9999) :
    natDec y = [digC (y / 1000), digC (y / 100 % 10), digC (y / 10 % 10), digC (y % 10)] := by
  rw [natDec_step y (by omega), natDec3 (y / 10) (by omega) (by omega),
    Nat.div_div_eq_div_mul, Nat.div_div_eq_div_mul]
  rfl

theorem pad2_small (n : Nat) (h : n < 10) : pad2 n = ['0', digC n] := by
  rw [pad2, zfill, natDec_small n h]
  rfl

theorem pad2_big (n : Nat) (h1 : 10 ≤ n) (h2 : n < 100) :
    pad2 n = [digC (n / 10), digC (n % 10)] := by
  rw [pad2, zfill, natDec2 n h1 h2]
  rfl

theorem digC_isDigit (k : Nat) (h : k < 10) : isDigitC (digC k) = true := by
  interval_cases k <;> decide

theorem digC_toNat (k : Nat) (h : k < 10) : (digC k).toNat = 48 + k := by
  interval_cases k <;> decide

theorem digC_ne_slash (k : Nat) (h : k < 10) : digC k ≠ '/' := by
  interval_cases k <;> decide

theorem digC_ne_hyphen (k : Nat) (h : k < 10) : digC k ≠ '-' := by
  interval_cases k <;> decide

theorem digC_ne_comma (k : Nat) (h : k < 10) : digC k ≠ ',' := by
  interval_cases k <;> decide

theorem digC_not_space (k : Nat) (h : k < 10) : isSpaceC (digC k) = false := by
  interval_cases k <;> decide

theorem dayCands_pad2 (d : Nat) (h1 : 1 ≤ d) (h2 : d ≤ 31) (s : Str) :
    dayCands (pad2 d ++ s) =
      (d, 2) :: (if 10 ≤ d then [(d / 10, 1)] else []) := by
  interval_cases d <;> rfl

theorem monthCands_pad2 (m : Nat) (h1 : 1 ≤ m) (h2 : m ≤ 31) (s : Str) :
    monthCands (pad2 m ++ s) =
      if m ≤ 12 then (m, 2) :: (if 10 ≤ m then [(1, 1)] else [])
      else [(m / 10, 1)] := by
  interval_cases m <;> rfl

theorem findSome?_singleton {α β : Type} (a : α) (f : α → Option β) :
    [a].findSome? f = f a := by
  cases h : f a <;> simp [List.findSome?_cons, h]

theorem matchF_nil (cs : Str) (st : Nat × Nat × Nat) :
    matchF [] cs st = if cs = [] then some st else none := rfl

theorem matchF_cons (t : FTok) (ts : List FTok) (cs : Str) (st : Nat × Nat × Nat) :
    matchF (t :: ts) cs st =
      (tokCands t cs).findSome? fun p => matchF ts (cs.drop p.2) (applyAct p.1 st) := rfl

theorem pad2_len (n : Nat) (h : n < 100) : (pad2 n).length = 2 := by
  by_cases hn : n < 10
  · rw [pad2_small n hn]; rfl
  · rw [pad2_big n (by omega) h]; rfl

theorem drop_pad2 (n : Nat) (h : n < 100) (s : Str) : (pad2 n ++ s).drop 2 = s := by
  by_cases hn : n < 10
  · rw [pad2_small n hn]; rfl
  · rw [pad2_big n (by omega) h]; rfl

theorem drop1_pad2 (n : Nat) (h1 : 10 ≤ n) (h2 : n < 100) (s : Str) :
    (pad2 n ++ s).drop 1 = digC (n % 10) :: s := by
  rw [pad2_big n h1 h2]; rfl

theorem matchF_day_ok (ts : List FTok) (d : Nat) (s : Str) (st : Nat × Nat × Nat)
    (h1 : 1 ≤ d) (h2 : d ≤ 31) {r : Nat × Nat × Nat}
    (hc : matchF ts s (applyAct (TokAct.setD d) st) = some r) :
    matchF (FTok.D :: ts) (pad2 d ++ s) st = some r := by
  rw [matchF_cons]
  show ((dayCands (pad2 d ++ s)).map fun p => (TokAct.setD p.1, p.2)).findSome? _ = _
  rw [dayCands_pad2 d h1 h2 s]
  by_cases hd : 10 ≤ d
  · rw [if_pos hd]
    simp only [List.map_cons, List.map_nil, List.findSome?_cons,
      drop_pad2 d (by omega) s, hc]
  · rw [if_neg hd]
    simp only [List.map_cons, List.map_nil, List.findSome?_cons,
      drop_pad2 d (by omega) s, hc]

theorem matchF_day_fail (ts : List FTok) (d : Nat) (s : Str) (st : Nat × Nat × Nat)
    (h1 : 1 ≤ d) (h2 : d ≤ 31)
    (hc : matchF ts s (applyAct (TokAct.setD d) st) = none)
    (hc2 : 10 ≤ d → matchF ts (digC (d % 10) :: s) (applyAct (TokAct.setD (d / 10)) st) = none) :
    matchF (FTok.D :: ts) (pad2 d ++ s) st = none := by
  rw [matchF_cons]
  show ((dayCands (pad2 d ++ s)).map fun p => (TokAct.setD p.1, p.2)).findSome? _ = _
  rw [dayCands_pad2 d h1 h2 s]
  by_cases hd : 10 ≤ d
  · rw [if_pos hd]
    simp only [List.map_cons, List.map_nil, List.findSome?_cons,
      drop_pad2 d (by omega) s, drop1_pad2 d hd (by omega) s, hc, hc2 hd,
      List.findSome?_nil]
  · rw [if_neg hd]
    simp only [List.map_cons, List.map_nil, List.findSome?_cons,
      drop_pad2 d (by omega) s, hc, List.findSome?_nil]

theorem matchF_month_ok (ts : List FTok) (m : Nat) (s : Str) (st : Nat × Nat × Nat)
    (h1 : 1 ≤ m) (h2 : m ≤ 12) {r : Nat × Nat × Nat}
    (hc : matchF ts s (applyAct (TokAct.setM m) st) = some r) :
    matchF (FTok.M :: ts) (pad2 m ++ s) st = some r := by
  rw [matchF_cons]
  show ((monthCands (pad2 m ++ s)).map fun p => (TokAct.setM p.1, p.2)).findSome? _ = _
  rw [monthCands_pad2 m h1 (by omega) s, if_pos h2]
  by_cases hm : 10 ≤ m
  · rw [if_pos hm]
    simp only [List.map_cons, List.map_nil, List.findSome?_cons,
      drop_pad2 m (by omega) s, hc]
  · rw [if_neg hm]
    simp only [List.map_cons, List.map_nil, List.findSome?_cons,
      drop_pad2 m (by omega) s, hc]

theorem matchF_month_fail (ts : List FTok) (m : Nat) (s : Str) (st : Nat × Nat × Nat)
    (h1 : 1 ≤ m) (h2 : m ≤ 31)
    (hc : m ≤ 12 → matchF ts s (applyAct (TokAct.setM m) st) = none)
    (hc2 : 10 ≤ m → matchF ts (digC (m % 10) :: s) (applyAct (TokAct.setM (m / 10)) st) = none) :
    matchF (FTok.M :: ts) (pad2 m ++ s) st = none := by
  rw [matchF_cons]
  show ((monthCands (pad2 m ++ s)).map fun p => (TokAct.setM p.1, p.2)).findSome? _ = _
  rw [monthCands_pad2 m h1 h2 s]
  by_cases h12 : m ≤ 12
  · rw [if_pos h12]
    by_cases hm : 10 ≤ m
    · have hq : m / 10 = 1 := by omega
      rw [if_pos hm]
      simp only [List.map_cons, List.map_nil, List.findSome?_cons,
        drop_pad2 m (by omega) s, drop1_pad2 m hm (by omega) s, hc h12,
        hq ▸ hc2 hm, List.findSome?_nil]
    · rw [if_neg hm]
      simp only [List.map_cons, List.map_nil, List.findSome?_cons,
        drop_pad2 m (by omega) s, hc h12, List.findSome?_nil]
  · rw [if_neg h12]
    have hm : 10 ≤ m := by omega
    simp only [List.map_cons, List.map_nil, List.findSome?_cons,
      drop1_pad2 m hm (by omega) s, hc2 hm, List.findSome?_nil]

theorem matchF_lit_ok (c : Char) (ts : List FTok) (s : Str) (st : Nat × Nat × Nat) :
    matchF (FTok.lit c :: ts) (c :: s) st = matchF ts s st := by
  rw [matchF_cons]
  show (if c = c then [(TokAct.keep, 1)] else []).findSome? _ = _
  rw [if_pos rfl, findSome?_singleton]
  rfl

theorem matchF_lit_fail (c c' : Char) (hne : c' ≠ c) (ts : List FTok) (s : Str)
    (st : Nat × Nat × Nat) :
    matchF (FTok.lit c :: ts) (c' :: s) st = none := by
  rw [matchF_cons]
  show (if c' = c then [(TokAct.keep, 1)] else []).findSome? _ = _
  rw [if_neg hne]
  rfl

theorem matchF_ws_fail (c : Char) (hc : isSpaceC c = false) (ts : List FTok) (s : Str)
    (st : Nat × Nat × Nat) :
    matchF (FTok.WS :: ts) (c :: s) st = none := by
  rw [matchF_cons]
  show ((List.range ((List.takeWhile isSpaceC (c :: s)).length)).map _).findSome? _ = _
  rw [List.takeWhile_cons_of_neg (by simp [hc])]
  rfl

theorem matchF_y4_ok (ts : List FTok) (y : Nat) (s : Str) (st : Nat × Nat × Nat)
    (h1 : 1000 ≤ y) (h2 : y ≤ 9999) :
    matchF (FTok.Y4 :: ts) (natDec y ++ s) st =
      matchF ts s (applyAct (TokAct.setY y) st) := by
  rw [matchF_cons, natDec4 y h1 h2]
  have e1 : y / 1000 < 10 := by omega
  have e2 : y / 100 % 10 < 10 := by omega
  have e3 : y / 10 % 10 < 10 := by omega
  have e4 : y % 10 < 10 := by omega
  show ((if isDigitC (digC (y / 1000)) = true ∧ isDigitC (digC (y / 100 % 10)) = true ∧
          isDigitC (digC (y / 10 % 10)) = true ∧ isDigitC (digC (y % 10)) = true then
          [(TokAct.setY (digitsVal [digC (y / 1000), digC (y / 100 % 10),
            digC (y / 10 % 10), digC (y % 10)]), 4)]
        else []).findSome? _) = _
  rw [if_pos ⟨digC_isDigit _ e1, digC_isDigit _ e2, digC_isDigit _ e3, digC_isDigit _ e4⟩,
    findSome?_singleton]
  have hv : digitsVal [digC (y / 1000), digC (y / 100 % 10), digC (y / 10 % 10),
      digC (y % 10)] = y := by
    simp only [digitsVal, List.foldl, digC_toNat _ e1, digC_toNat _ e2,
      digC_toNat _ e3, digC_toNat _ e4]
    omega
  rw [hv]
  rfl

theorem matchF_y4_fail_short (ts : List FTok) (y : Nat) (st : Nat × Nat × Nat)
    (h1 : 1 ≤ y) (h2 : y < 1000) :
    matchF (FTok.Y4 :: ts) (natDec y) st = none := by
  rw [matchF_cons]
  by_cases ha : y < 10
  · rw [natDec_small y ha]; rfl
  · by_cases hb : y < 100
    · rw [natDec2 y (by omega) hb]; rfl
    · rw [natDec3 y (by omega) h2]; rfl

theorem matchF_y4_fail_slash (ts : List FTok) (a b : Char) (s : Str)
    (st : Nat × Nat × Nat) :
    matchF (FTok.Y4 :: ts) (a :: b :: '/' :: s) st = none := by
  cases s with
  | nil => rw [matchF_cons]; rfl
  | cons c4 s' =>
      rw [matchF_cons]
      show ((if isDigitC a = true ∧ isDigitC b = true ∧ isDigitC '/' = true ∧
              isDigitC c4 = true then
              [(TokAct.setY (digitsVal [a, b, '/', c4]), 4)]
            else []).findSome? fun p =>
              matchF ts ((a :: b :: '/' :: c4 :: s').drop p.2) (applyAct p.1 st)) = none
      rw [if_neg (by intro h; exact absurd h.2.2.1 (by decide))]
      rfl

theorem matchF_y2_ok (ts : List FTok) (y : Nat) (s : Str) (st : Nat × Nat × Nat)
    (h1 : 10 ≤ y) (h2 : y < 100) :
    matchF (FTok.Y2 :: ts) (natDec y ++ s) st =
      matchF ts s (applyAct (TokAct.setY (y2fix y)) st) := by
  rw [matchF_cons, natDec2 y h1 h2]
  have e1 : y / 10 < 10 := by omega
  have e2 : y % 10 < 10 := by omega
  show ((if isDigitC (digC (y / 10)) = true ∧ isDigitC (digC (y % 10)) = true then
          [(TokAct.setY (y2fix (digitsVal [digC (y / 10), digC (y % 10)])), 2)]
        else []).findSome? _) = _
  rw [if_pos ⟨digC_isDigit _ e1, digC_isDigit _ e2⟩, findSome?_singleton]
  have hv : digitsVal [digC (y / 10), digC (y % 10)] = y := by
    simp only [digitsVal, List.foldl, digC_toNat _ e1, digC_toNat _ e2]
    omega
  rw [hv]
  rfl

theorem matchF_y2_fail_1digit (ts : List FTok) (y : Nat) (st : Nat × Nat × Nat)
    (h : y < 10) :
    matchF (FTok.Y2 :: ts) (natDec y) st = none := by
  rw [matchF_cons, natDec_small y h]
  rfl

theorem matchF_y2_last_fail_3digit (y : Nat) (st : Nat × Nat × Nat)
    (h1 : 100 ≤ y) (h2 : y < 1000) :
    matchF [FTok.Y2] (natDec y) st = none := by
  rw [matchF_cons, natDec3 y h1 h2]
  have e1 : y / 100 < 10 := by omega
  have e2 : y / 10 % 10 < 10 := by omega
  show ((if isDigitC (digC (y / 100)) = true ∧ isDigitC (digC (y / 10 % 10)) = true then
          [(TokAct.setY (y2fix (digitsVal [digC (y / 100), digC (y / 10 % 10)])), 2)]
        else []).findSome? _) = _
  rw [if_pos ⟨digC_isDigit _ e1, digC_isDigit _ e2⟩, findSome?_singleton]
  rfl

theorem tokCands_B_digit (k : Nat) (hk : k < 10) (s : Str) :
    tokCands FTok.B (digC k :: s) = [] := by
  interval_cases k <;> rfl

theorem tokCands_Bab_digit (k : Nat) (hk : k < 10) (s : Str) :
    tokCands FTok.Bab (digC k :: s) = [] := by
  interval_cases k <;> rfl

theorem matchF_B_fail_digit (ts : List FTok) (k : Nat) (hk : k < 10) (s : Str)
    (st : Nat × Nat × Nat) :
    matchF (FTok.B :: ts) (digC k :: s) st = none := by
  rw [matchF_cons, tokCands_B_digit k hk]
  rfl

theorem matchF_Bab_fail_digit (ts : List FTok) (k : Nat) (hk : k < 10) (s : Str)
    (st : Nat × Nat × Nat) :
    matchF (FTok.Bab :: ts) (digC k :: s) st = none := by
  rw [matchF_cons, tokCands_Bab_digit k hk]
  rfl

theorem stripS_eq_rdrop (s : Str) :
    stripS s = (s.dropWhile isSpaceC).rdropWhile isSpaceC := rfl

theorem stripS_idem (s : Str) : stripS (stripS s) = stripS s := by
  simp only [stripS_eq_rdrop]
  have step1 : List.dropWhile isSpaceC ((s.dropWhile isSpaceC).rdropWhile isSpaceC) =
      (s.dropWhile isSpaceC).rdropWhile isSpaceC := by
    rw [List.dropWhile_eq_self_iff]
    intro hl
    obtain ⟨t, ht⟩ := List.rdropWhile_prefix isSpaceC (s.dropWhile isSpaceC)
    have hune : (s.dropWhile isSpaceC).rdropWhile isSpaceC ≠ [] :=
      List.ne_nil_of_length_pos hl
    rw [List.get_mk_zero]
    obtain ⟨c0, u', hu⟩ := List.exists_cons_of_ne_nil hune
    have ha : s.dropWhile isSpaceC = c0 :: (u' ++ t) := by
      rw [← ht, hu]
      simp
    have hlen : 0 < (s.dropWhile isSpaceC).length := by rw [ha]; simp
    have hnot := List.dropWhile_get_zero_not isSpaceC s hlen
    rw [List.get_mk_zero] at hnot
    simp only [ha, List.head_cons] at hnot
    simp only [hu, List.head_cons]
    exact hnot
  rw [step1, List.rdropWhile_idempotent]

theorem findSome?_ex {α β : Type} {l : List α} {f : α → Option β} {b : β}
    (h : l.findSome? f = some b) : ∃ a, a ∈ l ∧ f a = some b := by
  induction l with
  | nil => simp [List.findSome?] at h
  | cons x xs ih =>
      rw [List.findSome?_cons] at h
      cases hx : f x with
      | some b' =>
          rw [hx] at h
          exact ⟨x, by simp, by rw [hx, ← h]⟩
      | none =>
          rw [hx] at h
          obtain ⟨a, ha, hfa⟩ := ih h
          exact ⟨a, by simp [ha], hfa⟩

theorem tryFormats_some {cs r : Str} (h : tryFormats cs = some r) :
    ∃ d m y, validDMY d m y = true ∧ r = renderDMY d m y := by
  obtain ⟨f, -, hf⟩ := findSome?_ex h
  rw [Option.map_eq_some'] at hf
  obtain ⟨t, ht, hr⟩ := hf
  unfold parseFmt at ht
  cases hm : matchF f cs (0, 0, 0) with
  | none => rw [hm] at ht; exact absurd ht (by simp)
  | some t' =>
      rw [hm] at ht
      by_cases hv : validDMY t'.1 t'.2.1 t'.2.2 = true
      · refine ⟨t'.1, t'.2.1, t'.2.2, hv, ?_⟩
        have : t = t' := by
          by_contra hne
          simp only [show (t'.1, t'.2.1, t'.2.2) = t' from rfl] at ht
          rw [if_pos hv] at ht
          exact hne (by injection ht with h'; exact h'.symm)
        rw [← hr, this]
      · simp only [show (t'.1, t'.2.1, t'.2.2) = t' from rfl] at ht
        rw [if_neg hv] at ht
        exact absurd ht (by simp)

theorem dim_le_31 (m y : Nat) : dim m y ≤ 31 := by
  unfold dim
  split
  · split <;> omega
  · split <;> omega

theorem digC_not_sep (k : Nat) (h : k < 10) : isSepC (digC k) = false := by
  interval_cases k <;> decide

theorem mem_decGo {c : Char} : ∀ fuel n, c ∈ decGo fuel n → ∃ k, k < 10 ∧ c = digC k := by
  intro fuel
  induction fuel with
  | zero => intro n h; simp [decGo] at h
  | succ f ih =>
      intro n h
      have hdef : decGo (f + 1) n =
          if n < 10 then [digC n] else decGo f (n / 10) ++ [digC (n % 10)] := rfl
      rw [hdef] at h
      by_cases hn : n < 10
      · rw [if_pos hn, List.mem_singleton] at h
        exact ⟨n, hn, h⟩
      · rw [if_neg hn, List.mem_append, List.mem_singleton] at h
        rcases h with h | h
        · exact ih _ h
        · exact ⟨n % 10, by omega, h⟩

theorem mem_natDec {c : Char} {n : Nat} (h : c ∈ natDec n) :
    ∃ k, k < 10 ∧ c = digC k := mem_decGo _ n h

theorem mem_pad2 {c : Char} {n : Nat} (h : c ∈ pad2 n) :
    ∃ k, k < 10 ∧ c = digC k := by
  rw [pad2, zfill, List.mem_append] at h
  rcases h with h | h
  · rw [List.mem_replicate] at h
    refine ⟨0, by omega, ?_⟩
    rw [h.2]
    decide
  · exact mem_natDec h

theorem renderDMY_no_sep {c : Char} {d m y : Nat} (h : c ∈ renderDMY d m y) :
    isSepC c = false := by
  have hcases : c ∈ pad2 d ∨ c = '/' ∨ c ∈ pad2 m ∨ c ∈ natDec y := by
    simp only [renderDMY, List.mem_append, List.mem_cons] at h
    tauto
  rcases hcases with h1 | h1 | h1 | h1
  · obtain ⟨k, hk, rfl⟩ := mem_pad2 h1
    exact digC_not_sep k hk
  · subst h1; decide
  · obtain ⟨k, hk, rfl⟩ := mem_pad2 h1
    exact digC_not_sep k hk
  · obtain ⟨k, hk, rfl⟩ := mem_natDec h1
    exact digC_not_sep k hk

theorem cleanSeps_eq_self_of {s : Str} (h : ∀ c ∈ s, isSepC c = false) :
    cleanSeps s = s := by
  unfold cleanSeps
  rw [show s.map (fun c => if isSepC c then '/' else c) =
      s.map id from List.map_congr_left fun a ha => by simp [h a ha]]
  exact List.map_id s

theorem renderDMY_clean (d m y : Nat) : cleanSeps (renderDMY d m y) = renderDMY d m y :=
  cleanSeps_eq_self_of fun _ hc => renderDMY_no_sep hc

theorem renderDMY_strip (d m y : Nat) : stripS (renderDMY d m y) = renderDMY d m y :=
  stripS_of_no_space fun c hc => by
    have := renderDMY_no_sep hc
    by_contra hsp
    simp only [Bool.not_eq_false] at hsp
    rw [show isSepC c = true by simp [isSepC, hsp]] at this
    exact absurd this (by simp)

theorem renderDMY_ne_nil (d m y : Nat) : renderDMY d m y ≠ [] := by
  unfold renderDMY
  by_cases hd : d < 10
  · rw [pad2_small d hd]; simp
  · by_cases hd2 : d < 100
    · rw [pad2_big d (by omega) hd2]; simp
    · unfold pad2 zfill
      simp only [List.append_assoc]
      intro h
      have := congrArg List.length h
      simp only [List.length_append, List.length_nil] at this
      have h4 : (natDec d).length ≠ 0 := by
        intro h0
        have : natDec d = [] := List.length_eq_zero.mp h0
        by_cases hdd : d < 10
        · rw [natDec_small d hdd] at this; simp at this
        · rw [natDec_step d (by omega)] at this; simp at this
      omega

theorem nd_fail_fix (u : Str) (hstrip : stripS u = u) (htf : tryFormats u = none)
    (hcl : cleanSeps u = u) : normalize_date u = u := by
  by_cases hu : u = []
  · subst hu; rfl
  · rw [normalize_date, ndFuel_succ 1, if_neg hu, hstrip, htf]
    simp [hcl]

theorem matchF_fmt1_render (d m y : Nat) (hd1 : 1 ≤ d) (hd2 : d ≤ 31)
    (hm1 : 1 ≤ m) (hm2 : m ≤ 12) (h1 : 1000 ≤ y) (h2 : y ≤ 9999) :
    matchF [FTok.D, FTok.lit '/', FTok.M, FTok.lit '/', FTok.Y4]
      (renderDMY d m y) (0, 0, 0) = some (d, m, y) := by
  unfold renderDMY
  apply matchF_day_ok _ _ _ _ hd1 hd2
  rw [matchF_lit_ok]
  apply matchF_month_ok _ _ _ _ hm1 hm2
  rw [matchF_lit_ok, ← List.append_nil (natDec y), matchF_y4_ok _ y [] _ h1 h2]
  rfl

theorem matchF_fmt7_render (d m y : Nat) (hd1 : 1 ≤ d) (hd2 : d ≤ 31)
    (hm1 : 1 ≤ m) (hm2 : m ≤ 12) (h1 : 10 ≤ y) (h2 : y < 100) :
    matchF [FTok.D, FTok.lit '/', FTok.M, FTok.lit '/', FTok.Y2]
      (renderDMY d m y) (0, 0, 0) = some (d, m, y2fix y) := by
  unfold renderDMY
  apply matchF_day_ok _ _ _ _ hd1 hd2
  rw [matchF_lit_ok]
  apply matchF_month_ok _ _ _ _ hm1 hm2
  rw [matchF_lit_ok, ← List.append_nil (natDec y), matchF_y2_ok _ y [] _ h1 h2]
  rfl

theorem matchF_fmt1_fail (d m y : Nat) (st : Nat × Nat × Nat) (hd1 : 1 ≤ d) (hd2 : d ≤ 31)
    (hm1 : 1 ≤ m) (hm2 : m ≤ 12) (hy1 : 1 ≤ y) (hy2 : y < 1000) :
    matchF [FTok.D, FTok.lit '/', FTok.M, FTok.lit '/', FTok.Y4]
      (renderDMY d m y) st = none := by
  unfold renderDMY
  apply matchF_day_fail _ _ _ _ hd1 hd2
  · rw [matchF_lit_ok]
    apply matchF_month_fail _ _ _ _ hm1 (by omega)
    · intro _
      rw [matchF_lit_ok]
      exact matchF_y4_fail_short _ y _ hy1 hy2
    · intro hm10
      exact matchF_lit_fail '/' (digC (m % 10)) (digC_ne_slash _ (by omega)) _ _ _
  · intro _
    exact matchF_lit_fail '/' (digC (d % 10)) (digC_ne_slash _ (by omega)) _ _ _

theorem matchF_fmt2_fail (d m y : Nat) (st : Nat × Nat × Nat) (hd1 : 1 ≤ d) (hd2 : d ≤ 31)
    (hm1 : 1 ≤ m) (hm2 : m ≤ 12) (hy1 : 1 ≤ y) (hy2 : y < 1000) :
    matchF [FTok.M, FTok.lit '/', FTok.D, FTok.lit '/', FTok.Y4]
      (renderDMY d m y) st = none := by
  unfold renderDMY
  apply matchF_month_fail _ _ _ _ hd1 hd2
  · intro _
    rw [matchF_lit_ok]
    apply matchF_day_fail _ _ _ _ hm1 (by omega)
    · rw [matchF_lit_ok]
      exact matchF_y4_fail_short _ y _ hy1 hy2
    · intro hm10
      exact matchF_lit_fail '/' (digC (m % 10)) (digC_ne_slash _ (by omega)) _ _ _
  · intro _
    exact matchF_lit_fail '/' (digC (d % 10)) (digC_ne_slash _ (by omega)) _ _ _

theorem matchF_y4pad_fail (ts : List FTok) (n : Nat) (X : Str) (st : Nat × Nat × Nat)
    (h2 : n < 100) :
    matchF (FTok.Y4 :: ts) (pad2 n ++ ('/' :: X)) st = none := by
  by_cases hn : n < 10
  · rw [pad2_small n hn]
    exact matchF_y4_fail_slash ts '0' (digC n) X st
  · rw [pad2_big n (by omega) h2]
    exact matchF_y4_fail_slash ts (digC (n / 10)) (digC (n % 10)) X st

theorem matchF_day_hyphen_fail (ts : List FTok) (d : Nat) (X : Str) (st : Nat × Nat × Nat)
    (hd1 : 1 ≤ d) (hd2 : d ≤ 31) :
    matchF (FTok.D :: FTok.lit '-' :: ts) (pad2 d ++ ('/' :: X)) st = none := by
  apply matchF_day_fail _ _ _ _ hd1 hd2
  · exact matchF_lit_fail '-' '/' (by decide) _ _ _
  · intro _
    exact matchF_lit_fail '-' (digC (d % 10)) (digC_ne_hyphen _ (by omega)) _ _ _

theorem matchF_day_ws_fail (ts : List FTok) (d : Nat) (X : Str) (st : Nat × Nat × Nat)
    (hd1 : 1 ≤ d) (hd2 : d ≤ 31) :
    matchF (FTok.D :: FTok.WS :: ts) (pad2 d ++ ('/' :: X)) st = none := by
  apply matchF_day_fail _ _ _ _ hd1 hd2
  · exact matchF_ws_fail '/' (by decide) _ _ _
  · intro _
    exact matchF_ws_fail (digC (d % 10)) (digC_not_space _ (by omega)) _ _ _

theorem matchF_B_pad_fail (ts : List FTok) (n : Nat) (X : Str) (st : Nat × Nat × Nat)
    (h2 : n < 100) :
    matchF (FTok.B :: ts) (pad2 n ++ X) st = none := by
  by_cases hn : n < 10
  · rw [pad2_small n hn]
    exact matchF_B_fail_digit ts 0 (by omega) _ st
  · rw [pad2_big n (by omega) h2]
    exact matchF_B_fail_digit ts (n / 10) (by omega) _ st

theorem matchF_Bab_pad_fail (ts : List FTok) (n : Nat) (X : Str) (st : Nat × Nat × Nat)
    (h2 : n < 100) :
    matchF (FTok.Bab :: ts) (pad2 n ++ X) st = none := by
  by_cases hn : n < 10
  · rw [pad2_small n hn]
    exact matchF_Bab_fail_digit ts 0 (by omega) _ st
  · rw [pad2_big n (by omega) h2]
    exact matchF_Bab_fail_digit ts (n / 10) (by omega) _ st

theorem matchF_fmt7_fail (d m y : Nat) (st : Nat × Nat × Nat) (hd1 : 1 ≤ d) (hd2 : d ≤ 31)
    (hm1 : 1 ≤ m) (hm2 : m ≤ 12) (hy1 : 1 ≤ y) (hy2 : y < 1000)
    (hyno : ¬ (10 ≤ y ∧ y < 100)) :
    matchF [FTok.D, FTok.lit '/', FTok.M, FTok.lit '/', FTok.Y2]
      (renderDMY d m y) st = none := by
  unfold renderDMY
  apply matchF_day_fail _ _ _ _ hd1 hd2
  · rw [matchF_lit_ok]
    apply matchF_month_fail _ _ _ _ hm1 (by omega)
    · intro _
      rw [matchF_lit_ok]
      by_cases h10 : y < 10
      · exact matchF_y2_fail_1digit [] y _ h10
      · exact matchF_y2_last_fail_3digit y _ (by omega) hy2
    · intro hm10
      exact matchF_lit_fail '/' (digC (m % 10)) (digC_ne_slash _ (by omega)) _ _ _
  · intro _
    exact matchF_lit_fail '/' (digC (d % 10)) (digC_ne_slash _ (by omega)) _ _ _

theorem parseFmt_none {toks : List FTok} {cs : Str}
    (h : matchF toks cs (0, 0, 0) = none) : parseFmt toks cs = none := by
  unfold parseFmt
  rw [h]

theorem validDMY_unfold {d m y : Nat} (hv : validDMY d m y = true) :
    1 ≤ y ∧ y ≤ 9999 ∧ 1 ≤ m ∧ m ≤ 12 ∧ 1 ≤ d ∧ d ≤ dim m y := by
  simpa [validDMY] using hv

theorem isLeap_y2fix (y : Nat) (h1 : 10 ≤ y) (h2 : y ≤ 99) :
    isLeap (y2fix y) = isLeap y := by
  unfold isLeap y2fix
  by_cases hy : y ≤ 68
  · rw [if_pos hy, decide_eq_decide]
    omega
  · rw [if_neg hy, decide_eq_decide]
    omega

theorem dim_y2fix (m y : Nat) (h1 : 10 ≤ y) (h2 : y ≤ 99) :
    dim m (y2fix y) = dim m y := by
  unfold dim
  rw [isLeap_y2fix y h1 h2]

theorem validDMY_y2fix (d m y : Nat) (hv : validDMY d m y = true)
    (h1 : 10 ≤ y) (h2 : y ≤ 99) : validDMY d m (y2fix y) = true := by
  obtain ⟨_, _, hm1, hm2, hd1, hdim⟩ := validDMY_unfold hv
  have hdim' : d ≤ dim m (y2fix y) := by rw [dim_y2fix m y h1 h2]; exact hdim
  simp only [validDMY, decide_eq_true_eq]
  refine ⟨?_, ?_, hm1, hm2, hd1, hdim'⟩ <;> (unfold y2fix; split <;> omega)

theorem tryFormats_render_big (d m y : Nat) (hv : validDMY d m y = true)
    (h1 : 1000 ≤ y) (h2 : y ≤ 9999) :
    tryFormats (renderDMY d m y) = some (renderDMY d m y) := by
  obtain ⟨hy1, hy2, hm1, hm2, hd1, hdim⟩ := validDMY_unfold hv
  have hd31 : d ≤ 31 := le_trans hdim (dim_le_31 m y)
  have hp1 : parseFmt [FTok.D, FTok.lit '/', FTok.M, FTok.lit '/', FTok.Y4]
      (renderDMY d m y) = some (d, m, y) := by
    unfold parseFmt
    rw [matchF_fmt1_render d m y hd1 hd31 hm1 hm2 h1 h2]
    simp [hv]
  simp [tryFormats, ndFormats, List.findSome?_cons, hp1]

theorem tryFormats_render_2digit (d m y : Nat) (hv : validDMY d m y = true)
    (h1 : 10 ≤ y) (h2 : y ≤ 99) :
    tryFormats (renderDMY d m y) = some (renderDMY d m (y2fix y)) := by
  obtain ⟨hy1, hy2, hm1, hm2, hd1, hdim⟩ := validDMY_unfold hv
  have hd31 : d ≤ 31 := le_trans hdim (dim_le_31 m y)
  have hf1 := parseFmt_none (matchF_fmt1_fail d m y _ hd1 hd31 hm1 hm2 hy1 (by omega))
  have hf2 := parseFmt_none (matchF_fmt2_fail d m y _ hd1 hd31 hm1 hm2 hy1 (by omega))
  have hf3 : parseFmt [FTok.Y4, FTok.lit '-', FTok.M, FTok.lit '-', FTok.D]
      (renderDMY d m y) = none := by
    apply parseFmt_none
    unfold renderDMY
    exact matchF_y4pad_fail _ d _ _ (by omega)
  have hf4 : parseFmt [FTok.D, FTok.lit '-', FTok.M, FTok.lit '-', FTok.Y4]
      (renderDMY d m y) = none := by
    apply parseFmt_none
    unfold renderDMY
    exact matchF_day_hyphen_fail _ d _ _ hd1 hd31
  have hf5 : parseFmt [FTok.B, FTok.WS, FTok.D, FTok.lit ',', FTok.WS, FTok.Y4]
      (renderDMY d m y) = none := by
    apply parseFmt_none
    unfold renderDMY
    exact matchF_B_pad_fail _ d _ _ (by omega)
  have hf6 : parseFmt [FTok.Bab, FTok.WS, FTok.D, FTok.lit ',', FTok.WS, FTok.Y4]
      (renderDMY d m y) = none := by
    apply parseFmt_none
    unfold renderDMY
    exact matchF_Bab_pad_fail _ d _ _ (by omega)
  have hp7 : parseFmt [FTok.D, FTok.lit '/', FTok.M, FTok.lit '/', FTok.Y2]
      (renderDMY d m y) = some (d, m, y2fix y) := by
    unfold parseFmt
    rw [matchF_fmt7_render d m y hd1 hd31 hm1 hm2 h1 (by omega)]
    simp [validDMY_y2fix d m y hv h1 h2]
  simp [tryFormats, ndFormats, List.findSome?_cons, hf1, hf2, hf3, hf4, hf5, hf6, hp7]

theorem tryFormats_render_none (d m y : Nat) (hv : validDMY d m y = true)
    (hy : y < 10 ∨ (100 ≤ y ∧ y < 1000)) :
    tryFormats (renderDMY d m y) = none := by
  obtain ⟨hy1, hy2, hm1, hm2, hd1, hdim⟩ := validDMY_unfold hv
  have hd31 : d ≤ 31 := le_trans hdim (dim_le_31 m y)
  have hf1 := parseFmt_none (matchF_fmt1_fail d m y _ hd1 hd31 hm1 hm2 hy1 (by omega))
  have hf2 := parseFmt_none (matchF_fmt2_fail d m y _ hd1 hd31 hm1 hm2 hy1 (by omega))
  have hf3 : parseFmt [FTok.Y4, FTok.lit '-', FTok.M, FTok.lit '-', FTok.D]
      (renderDMY d m y) = none := by
    apply parseFmt_none
    unfold renderDMY
    exact matchF_y4pad_fail _ d _ _ (by omega)
  have hf4 : parseFmt [FTok.D, FTok.lit '-', FTok.M, FTok.lit '-', FTok.Y4]
      (renderDMY d m y) = none := by
    apply parseFmt_none
    unfold renderDMY
    exact matchF_day_hyphen_fail _ d _ _ hd1 hd31
  have hf5 : parseFmt [FTok.B, FTok.WS, FTok.D, FTok.lit ',', FTok.WS, FTok.Y4]
      (renderDMY d m y) = none := by
    apply parseFmt_none
    unfold renderDMY
    exact matchF_B_pad_fail _ d _ _ (by omega)
  have hf6 : parseFmt [FTok.Bab, FTok.WS, FTok.D, FTok.lit ',', FTok.WS, FTok.Y4]
      (renderDMY d m y) = none := by
    apply parseFmt_none
    unfold renderDMY
    exact matchF_Bab_pad_fail _ d _ _ (by omega)
  have hf7 := parseFmt_none (matchF_fmt7_fail d m y _ hd1 hd31 hm1 hm2 hy1 (by omega)
    (by omega))
  have hf8 : parseFmt [FTok.Y4, FTok.lit '/', FTok.M, FTok.lit '/', FTok.D]
      (renderDMY d m y) = none := by
    apply parseFmt_none
    unfold renderDMY
    exact matchF_y4pad_fail _ d _ _ (by omega)
  have hf9 : parseFmt [FTok.D, FTok.lit '-', FTok.Bab, FTok.lit '-', FTok.Y4]
      (renderDMY d m y) = none := by
    apply parseFmt_none
    unfold renderDMY
    exact matchF_day_hyphen_fail _ d _ _ hd1 hd31
  have hf10 : parseFmt [FTok.B, FTok.WS, FTok.D, FTok.WS, FTok.Y4]
      (renderDMY d m y) = none := by
    apply parseFmt_none
    unfold renderDMY
    exact matchF_B_pad_fail _ d _ _ (by omega)
  have hf11 : parseFmt [FTok.Bab, FTok.WS, FTok.D, FTok.WS, FTok.Y4]
      (renderDMY d m y) = none := by
    apply parseFmt_none
    unfold renderDMY
    exact matchF_Bab_pad_fail _ d _ _ (by omega)
  have hf12 : parseFmt [FTok.D, FTok.WS, FTok.B, FTok.WS, FTok.Y4]
      (renderDMY d m y) = none := by
    apply parseFmt_none
    unfold renderDMY
    exact matchF_day_ws_fail _ d _ _ hd1 hd31
  have hf13 : parseFmt [FTok.D, FTok.WS, FTok.Bab, FTok.WS, FTok.Y4]
      (renderDMY d m y) = none := by
    apply parseFmt_none
    unfold renderDMY
    exact matchF_day_ws_fail _ d _ _ hd1 hd31
  have hf14 : parseFmt [FTok.D, FTok.lit '-', FTok.B, FTok.lit '-', FTok.Y4]
      (renderDMY d m y) = none := by
    apply parseFmt_none
    unfold renderDMY
    exact matchF_day_hyphen_fail _ d _ _ hd1 hd31
  simp [tryFormats, ndFormats, List.findSome?_cons, hf1, hf2, hf3, hf4, hf5, hf6, hf7,
    hf8, hf9, hf10, hf11, hf12, hf13, hf14]

theorem nd_render_fix (d m y : Nat) (hv : validDMY d m y = true)
    (hy : ¬ (10 ≤ y ∧ y ≤ 99)) :
    normalize_date (renderDMY d m y) = renderDMY d m y := by
  obtain ⟨hy1, hy2, -, -, -, -⟩ := validDMY_unfold hv
  by_cases hbig : 1000 ≤ y
  · rw [normalize_date, ndFuel_succ 1, if_neg (renderDMY_ne_nil d m y),
      renderDMY_strip, tryFormats_render_big d m y hv hbig hy2]
  · exact nd_fail_fix _ (renderDMY_strip d m y)
      (tryFormats_render_none d m y hv (by omega)) (renderDMY_clean d m y)

theorem nd_render_2digit (d m y : Nat) (hv : validDMY d m y = true)
    (h1 : 10 ≤ y) (h2 : y ≤ 99) :
    normalize_date (renderDMY d m y) = renderDMY d m (y2fix y) := by
  rw [normalize_date, ndFuel_succ 1, if_neg (renderDMY_ne_nil d m y),
    renderDMY_strip, tryFormats_render_2digit d m y hv h1 h2]

/-! ## Claim theorems. -/

/-- C1.  `extract_data` (the orchestrator) has no AI-fallback stage at
all: its method tag is always one of the four regex/OCR tags (never
`AI`), and on the empty-extraction scenario of the repository's own
`test_extract_data_ai_fallback` (digital text `"Random noisy text"`, no
tables) it returns an empty record with method `Regex` instead of
invoking `extract_with_gemini` once and adopting its fields. -/
theorem extract_data_never_invokes_ai :
    (∀ (d : Doc) (f : Bool),
      (extract_data d f).2 = lit "Regex" ∨ (extract_data d f).2 = lit "Regex + OCR" ∨
      (extract_data d f).2 = lit "OCR (Tesseract)" ∨
      (extract_data d f).2 = lit "OCR (Tesseract) (Failed)") ∧
    extract_data docNoisy false = ((none, none), lit "Regex") := by
  constructor
  · intro d f
    simp only [extract_data]
    split_ifs <;> simp
  · decide

/-- C3 counterexample.  A scanned document (no digital text layer) whose
tables already supply a complete record still triggers the OCR stage with
`force_ocr = false`, because `should_ocr` includes `is_scanned`
unconditionally. -/
theorem complete_doc_still_triggers_ocr :
    is_digital_complete docScannedTables = true ∧
    should_ocr docScannedTables false = true := by
  constructor <;> decide

/-- C3 as amended.  With `force_ocr = false`, a document that is not
classified as scanned (its digital text layer strips to at least ten
characters) and whose digital plus table stages produced a complete
record is never escalated to OCR. -/
theorem no_ocr_when_complete_and_unscanned (d : Doc) (f : Bool)
    (hf : f = false) (hs : is_scanned d = false) (hc : is_digital_complete d = true) :
    should_ocr d f = false := by
  simp [should_ocr, hf, hs, hc]

/-- Witness for `no_ocr_when_complete_and_unscanned`. -/
theorem no_ocr_when_complete_and_unscanned_witness :
    is_scanned docCompleteText = false ∧ is_digital_complete docCompleteText = true ∧
    should_ocr docCompleteText false = false :=
  ⟨by decide, by decide,
   no_ocr_when_complete_and_unscanned docCompleteText false rfl (by decide) (by decide)⟩

/-- C4 counterexample.  At the OCR stage the merge is exact-equality
only: OCR serial `ABCD-9999` is a proper substring of the existing
`ABCD-99999` yet is appended as a separate entry instead of being
discarded for the longer string. -/
theorem ocr_merge_keeps_substring_duplicate :
    subIn (lit "ABCD-9999") (lit "ABCD-99999") = true ∧
    extract_data docOcrMerge false =
      ((none, some (lit "ABCD-99999\nABCD-9999")), lit "Regex + OCR") ∧
    lit "ABCD-99999\nABCD-9999" ≠ lit "ABCD-99999" := by
  refine ⟨by decide, by decide, by decide⟩

/-- C4 as amended.  The substring merge rule (keep the longer string,
replacing the shorter in place at its first related entry; append when
unrelated) holds at the table-supplement stage (`mergeTableSn`); the OCR
stage (`ocrAdd`) instead appends unless the new value is exactly equal to
an existing entry. -/
theorem merge_rules_table_vs_ocr :
    (∀ (l : List Str) (sn : Str),
      (∀ e ∈ l, ¬ (subIn sn e = true ∨ subIn e sn = true)) →
      mergeTableSn l sn = l ++ [sn]) ∧
    (∀ (pre : List Str) (e : Str) (rest : List Str) (sn : Str),
      (∀ x ∈ pre, ¬ (subIn sn x = true ∨ subIn x sn = true)) →
      (subIn sn e = true ∨ subIn e sn = true) →
      mergeTableSn (pre ++ e :: rest) sn =
        pre ++ (if e.length < sn.length then sn else e) :: rest) ∧
    (∀ (l : List Str) (sn : Str), sn ∈ l → ocrAdd l sn = l) ∧
    (∀ (l : List Str) (sn : Str), sn ∉ l → ocrAdd l sn = l ++ [sn]) :=
  ⟨mergeTableSn_append, mergeTableSn_replace,
   fun l sn h => by simp [ocrAdd, h],
   fun l sn h => by simp [ocrAdd, h]⟩

/-- Witness for `merge_rules_table_vs_ocr`. -/
theorem merge_rules_table_vs_ocr_witness :
    mergeTableSn [lit "ABCD-99999"] (lit "XY-11") = [lit "ABCD-99999", lit "XY-11"] ∧
    mergeTableSn [lit "ABC"] (lit "ABCD") = [lit "ABCD"] ∧
    ocrAdd [lit "A1"] (lit "A1") = [lit "A1"] ∧
    ocrAdd [lit "A1"] (lit "B2") = [lit "A1", lit "B2"] := by
  refine ⟨?_, ?_, ?_, ?_⟩
  · exact merge_rules_table_vs_ocr.1 [lit "ABCD-99999"] (lit "XY-11") (by decide)
  · simpa using merge_rules_table_vs_ocr.2.1 [] (lit "ABC") [] (lit "ABCD") (by decide) (by decide)
  · exact merge_rules_table_vs_ocr.2.2.1 [lit "A1"] (lit "A1") (by decide)
  · exact merge_rules_table_vs_ocr.2.2.2 [lit "A1"] (lit "B2") (by decide)

/-- C5.  On the repository's own test table (header `Serial No`, values
`SN-1`, `SN-2`, `SN-3`, then an empty row) the table extractor returns
the empty partial record — the strict `len(val) > 4` check drops the
length-4 values that `test_extract_from_tables` asserts are returned —
and an empty cell does not end the downward scan: a value below an empty
cell is still collected. -/
theorem table_scan_drops_test_values :
    extract_from_tables [tblSNTest] = TData.empty ∧
    extract_from_tables [tblEmptyCell] = ⟨none, [lit "SN-222"]⟩ := by
  constructor <;> decide

/-- C6 counterexample.  When every format fails on both passes, the
*cleaned* string (separators folded to `/`), not the original trimmed
input, is returned: `normalize_date "abc def" = "abc/def"`. -/
theorem normalize_date_returns_cleaned :
    normalize_date (lit "abc def") = lit "abc/def" ∧ lit "abc/def" ≠ lit "abc def" := by
  constructor <;> decide

/-- C6 as amended.  On format failure the separator-replacement pass
retries the format list exactly once — the fuelled recursion is stable
from depth two on — and if the retry also fails the *cleaned* string
(separators replaced by `/`; equal to the trimmed input only when it
contained no separator characters) is returned; no error is raised. -/
theorem normalize_date_single_retry :
    (∀ s : Str, tryFormats (stripS s) = none →
      tryFormats (cleanSeps (stripS s)) = none →
      normalize_date s = cleanSeps (stripS s)) ∧
    (∀ (n : Nat) (s : Str), ndFuel (n + 2) s = normalize_date s) := by
  constructor
  · intro s h1 h2
    show ndFuel 2 s = _
    by_cases hs : s = []
    · subst hs; decide
    · rw [ndFuel_succ 1, if_neg hs, h1]
      show (if cleanSeps (stripS s) ≠ stripS s then ndFuel 1 (cleanSeps (stripS s))
            else stripS s) = cleanSeps (stripS s)
      by_cases hct : cleanSeps (stripS s) = stripS s
      · rw [if_neg (by simpa using hct), hct]
      · rw [if_pos hct]
        have hne : cleanSeps (stripS s) ≠ [] := by
          intro h0
          exact hct (by rw [h0, (cleanSeps_eq_nil_iff _).mp h0])
        rw [ndFuel_succ 0, if_neg hne, stripS_cleanSeps, h2]
        show (if cleanSeps (cleanSeps (stripS s)) ≠ cleanSeps (stripS s) then _
              else cleanSeps (stripS s)) = cleanSeps (stripS s)
        rw [if_neg (by simp [cleanSeps_idem])]
  · intro n s
    exact ndFuel_two_stable n s

/-- Witness for `normalize_date_single_retry`. -/
theorem normalize_date_single_retry_witness :
    normalize_date (lit "ab cd") = cleanSeps (stripS (lit "ab cd")) ∧
    ndFuel 5 (lit "ab cd") = normalize_date (lit "ab cd") :=
  ⟨normalize_date_single_retry.1 (lit "ab cd") (by decide) (by decide),
   normalize_date_single_retry.2 3 (lit "ab cd")⟩

/-- C7.  Range expansion: `A100~A105` expands to the six enumerated
tokens; `A100 - B200` has dissimilar alphabetic heads and is split, not
expanded; and any sub-item whose parsed end number is smaller than its
start number, or whose delta exceeds 200, is never expanded — its output
is the token kept whole or split into its two halves. -/
theorem expand_serial_ranges_spec :
    expand_serial_ranges [lit "A100~A105"] =
      [lit "A100", lit "A101", lit "A102", lit "A103", lit "A104", lit "A105"] ∧
    expand_serial_ranges [lit "A100 - B200"] = [lit "A100", lit "B200"] ∧
    (∀ (sub p0 p1 pre sds preE eds : Str),
      subParts sub = some (p0, p1) →
      splitTrailDigits (stripS p0) = some (pre, sds) →
      splitTrailDigits (stripS p1) = some (preE, eds) →
      (digitsVal eds < digitsVal sds ∨ digitsVal eds - digitsVal sds > 200) →
      processSub sub = [sub] ∨ processSub sub = [stripS p0, stripS p1]) := by
  refine ⟨by decide, by decide, ?_⟩
  intro sub p0 p1 pre sds preE eds hp hs he hbad
  unfold processSub
  simp only [hp, hs, he]
  rw [if_neg fun hcond => hcond.2 hbad]
  unfold subFallback
  split
  · exact Or.inl rfl
  · split
    · exact Or.inr rfl
    · exact Or.inl rfl

/-- Witness for `expand_serial_ranges_spec`. -/
theorem expand_serial_ranges_spec_witness :
    processSub (lit "A200~A100") = [lit "A200~A100"] ∨
    processSub (lit "A200~A100") = [lit "A200", lit "A100"] :=
  expand_serial_ranges_spec.2.2 (lit "A200~A100") (lit "A200") (lit "A100")
    (lit "A") (lit "200") (lit "A") (lit "100") (by decide) (by decide) (by decide)
    (by decide)

/-- C8 counterexample.  A document whose digital layer is present but
yields nothing (so no digital data was gathered) triggers OCR; when OCR
fails the method stays `Regex`, not `OCR (Tesseract) (Failed)`, because
the failure tag requires `is_scanned or force_ocr`. -/
theorem ocr_failure_unscanned_keeps_regex :
    should_ocr docNoisy false = true ∧
    afterTableData docNoisy = (none, []) ∧
    (extract_data docNoisy false).2 = lit "Regex" ∧
    lit "Regex" ≠ lit "OCR (Tesseract) (Failed)" := by
  refine ⟨by decide, by decide, by decide, by decide⟩

/-- C8 as amended.  Whenever the OCR stage is triggered and the OCR text
extraction fails, the pipeline still returns a record and the method tag
is `OCR (Tesseract) (Failed)` exactly when the document was classified as
scanned or `force_ocr` was requested; otherwise it remains `Regex`. -/
theorem ocr_failure_method (d : Doc) (f : Bool)
    (ho : should_ocr d f = true) (hfail : pyTruthyO d.ocrText = false) :
    (extract_data d f).2 =
      (if is_scanned d ∨ f then lit "OCR (Tesseract) (Failed)" else lit "Regex") := by
  unfold extract_data
  rw [if_pos ho, if_neg (by simp [hfail])]

/-- Witness for `ocr_failure_method`. -/
theorem ocr_failure_method_witness :
    (extract_data docScannedEmpty false).2 = lit "OCR (Tesseract) (Failed)" := by
  have h := ocr_failure_method docScannedEmpty false (by decide) (by decide)
  rw [h]
  decide

/-- C9.  The search matcher returns true for query `KO123` against
stored value `K0123` via the O/0 fold, and in general, whenever the query
is a literal or O/0-folded substring of some item of the expanded stored
value, it returns true. -/
theorem serial_search_fuzzy :
    is_serial_in_range (lit "KO123") (lit "K0123") = true ∧
    (∀ target db item : Str, db ≠ [] →
      item ∈ expand_serial_ranges (splitChars ['\n', ',', ';'] db) →
      (subIn target item = true ∨
        subIn (replC 'O' '0' target) (replC 'O' '0' item) = true) →
      is_serial_in_range target db = true) := by
  constructor
  · decide
  · intro target db item hdb hmem hsub
    have hfuzzy : subIn (replC 'O' '0' target) (replC 'O' '0' item) = true := by
      rcases hsub with h | h
      · simpa [replC_eq_map] using subIn_map _ h
      · exact h
    unfold is_serial_in_range
    rw [if_neg hdb]
    split
    · rfl
    · rw [List.any_eq_true]
      refine ⟨item, hmem, ?_⟩
      rw [decide_eq_true_eq]
      exact Or.inr (by rw [foldO_clean, foldO_clean]; exact hfuzzy)

/-- Witness for `serial_search_fuzzy`. -/
theorem serial_search_fuzzy_witness :
    is_serial_in_range (lit "A101") (lit "A100~A105") = true :=
  serial_search_fuzzy.2 (lit "A101") (lit "A100~A105") (lit "A101") (by decide)
    (by decide) (by decide)

/-- C10.  `extract_serial_number` never returns duplicate entries: both
passes insert through the shared `seen` guard, so the result list is
pairwise distinct for every input. -/
theorem extract_serial_number_nodup (o : Option Str) :
    (extract_serial_number o).Nodup := by
  unfold extract_serial_number
  cases o with
  | none => exact List.nodup_nil
  | some t =>
      show (if t = [] then ([] : List Str)
            else (samelineCands t ++ columnarCands t).foldl addIfNew []).Nodup
      by_cases ht : t = []
      · simp [ht]
      · rw [if_neg ht]
        exact foldl_addIfNew_nodup _ [] List.nodup_nil

/-- C2 as amended.  Normalization is idempotent from the second
application on: `normalize_date ∘ normalize_date` is idempotent for every
input string.  (One application alone is not idempotent: the exception is
exactly an input parsing to a year 10–99, whose `%Y` rendering has two
digits and is reparsed by `%d/%m/%y` — see the counterexample.) -/
theorem normalize_date_stable_after_two (s : Str) :
    normalize_date (normalize_date (normalize_date s)) =
      normalize_date (normalize_date s) := by
  have hrender : ∀ d m y : Nat, validDMY d m y = true →
      normalize_date (normalize_date (renderDMY d m y)) =
        normalize_date (renderDMY d m y) := by
    intro d m y hv
    by_cases hy : 10 ≤ y ∧ y ≤ 99
    · rw [nd_render_2digit d m y hv hy.1 hy.2]
      have hv' := validDMY_y2fix d m y hv hy.1 hy.2
      have hy' : ¬ (10 ≤ y2fix y ∧ y2fix y ≤ 99) := by
        unfold y2fix; split <;> omega
      rw [nd_render_fix d m (y2fix y) hv' hy']
    · rw [nd_render_fix d m y hv hy, nd_render_fix d m y hv hy]
  by_cases hs : s = []
  · subst hs; rfl
  · cases htf : tryFormats (stripS s) with
    | some r =>
        have h1 : normalize_date s = r := by
          rw [normalize_date, ndFuel_succ 1, if_neg hs, htf]
        obtain ⟨d, m, y, hv, rfl⟩ := tryFormats_some htf
        rw [h1]
        exact hrender d m y hv
    | none =>
        by_cases hct : cleanSeps (stripS s) = stripS s
        · have h1 : normalize_date s = stripS s := by
            rw [normalize_date, ndFuel_succ 1, if_neg hs, htf]
            simp [hct]
          have hfix : normalize_date (stripS s) = stripS s :=
            nd_fail_fix _ (stripS_idem s) htf hct
          rw [h1, hfix]
          exact hfix
        · have h1 : normalize_date s = ndFuel 1 (cleanSeps (stripS s)) := by
            rw [normalize_date, ndFuel_succ 1, if_neg hs, htf]
            simp [hct]
          have hcne : cleanSeps (stripS s) ≠ [] := by
            intro h0
            exact hct (by rw [h0, (cleanSeps_eq_nil_iff _).mp h0])
          cases htf2 : tryFormats (cleanSeps (stripS s)) with
          | some r =>
              have h2 : normalize_date s = r := by
                rw [h1, ndFuel_succ 0, if_neg hcne, stripS_cleanSeps, htf2]
              obtain ⟨d, m, y, hv, rfl⟩ := tryFormats_some htf2
              rw [h2]
              exact hrender d m y hv
          | none =>
              have h2 : normalize_date s = cleanSeps (stripS s) := by
                rw [h1, ndFuel_succ 0, if_neg hcne, stripS_cleanSeps, htf2]
                simp [cleanSeps_idem, stripS_cleanSeps]
              have hfix : normalize_date (cleanSeps (stripS s)) = cleanSeps (stripS s) :=
                nd_fail_fix _ (stripS_cleanSeps _) htf2 (cleanSeps_idem _)
              rw [h2, hfix]
              exact hfix

/-- C2 counterexample.  `normalize_date` is not idempotent:
`"0045-01-01"` parses as year 45, which glibc's `%Y` renders as the
two-digit `"45"`, and the second application reparses it with `%d/%m/%y`
into 2045. -/
theorem normalize_date_not_idempotent :
    normalize_date (lit "0045-01-01") = lit "01/01/45" ∧
    normalize_date (normalize_date (lit "0045-01-01")) = lit "01/01/2045" ∧
    normalize_date (normalize_date (lit "0045-01-01")) ≠
      normalize_date (lit "0045-01-01") := by
  refine ⟨by decide, by decide, by decide⟩

end COCQ

